import Mathlib

/-!
Verification of the Creative_AI_launch prompt-assembly pipeline.

Shallow embedding of the pure logic of the repository:
  - `src/src/workflow/multi_prompt_system.py` (InputProcessor, LayoutIntegrator,
    PromptFinalizer),
  - `src/src/workflow/langgraph_quality_workflow.py` (quality retry loop),
  - `src/utils/gpt_utils.py` (optimize_prompt_with_gpt4).

Python strings are modelled as `List Char`, Python dict/list/str/other values
as the inductive `Val`, machine integers as `Int`/`Nat` (Python ints are
unbounded, so no wrap-around modelling is needed), and fallible operations
return `Option`.
-/

/-!
A Python value, as it occurs in the nested layout definitions, is a string,
a dict (association list, insertion-ordered), a list, or any other value
(numbers, None, ...), which the traversals pass through.  The dict entry
list and the element list are their own mutual inductives (isomorphic to
`List (List Char × Val)` and `List Val`) so that the recursive traversals
below are structural and fully computable.
-/

mutual

/-- A Python value of a layout definition. -/
inductive Val where
  | str : List Char → Val
  | dict : ValEntries → Val
  | list : ValList → Val
  | other : Val

/-- The entries of a Python dict value. -/
inductive ValEntries where
  | nil : ValEntries
  | cons : List Char → Val → ValEntries → ValEntries

/-- The elements of a Python list value. -/
inductive ValList where
  | nil : ValList
  | cons : Val → ValList → ValList

end

/-- Adjustment record appended by `LayoutIntegrator._apply_adaptive_rules`.
The Python dict has keys `rule`, `trigger` (a human-readable message built
from the two numbers recorded here as `triggerInfo = (actual, threshold)`),
`action` and `applied`. -/
structure Adjustment where
  rule : List Char
  triggerInfo : Int × Int
  action : List Char
  applied : Bool
deriving DecidableEq, Repr

/-- Result record of `PromptFinalizer._assess_overall_quality` (the
`recommendations` field is separate presentation logic and not scored). -/
structure QualityAssessment where
  overallScore : Nat
  layoutScore : Nat
  textScore : Nat
  mjScore : Nat
  dalleScore : Nat
  adaptiveScore : Nat
deriving DecidableEq, Repr

/-- `PromptFinalizer._assess_overall_quality`
(src/src/workflow/multi_prompt_system.py, lines 1934-1968):
five heuristic sub-scores, overall score is their integer-division average
(`sum(scores) // len(scores)` with `len(scores) = 5`).
`layout_definition` and `text_placements` are dicts (truthy iff nonempty),
`adaptive_adjustments` is a list (truthy iff nonempty). -/
def assessOverallQuality (layoutDefinition : List (List Char × Val))
    (textPlacements : List (List Char × Val))
    (adaptiveAdjustments : List Adjustment)
    (mjPrompt dallePrompt : List Char) : QualityAssessment :=
  let layoutScore : Nat := if layoutDefinition.isEmpty then 50 else 90
  let textScore : Nat := min 100 (textPlacements.length * 20)
  let mjScore : Nat := if 200 ≤ mjPrompt.length ∧ mjPrompt.length ≤ 800 then 90 else 70
  let dalleScore : Nat := if dallePrompt.length ≤ 4000 then 95 else 50
  let adaptiveScore : Nat := if adaptiveAdjustments.isEmpty then 80 else 100
  { overallScore := (layoutScore + textScore + mjScore + dalleScore + adaptiveScore) / 5
    layoutScore := layoutScore
    textScore := textScore
    mjScore := mjScore
    dalleScore := dalleScore
    adaptiveScore := adaptiveScore }

/-- Characters stripped by Python `str.strip()` with no arguments
(ASCII whitespace; the claims do not depend on the exotic Unicode cases). -/
def pyIsSpace (c : Char) : Bool :=
  c = ' ' || c = '\t' || c = '\n' || c = '\r' || c = '\x0b' || c = '\x0c'

/-- Python `s.strip()`: drop whitespace from both ends. -/
def pyStrip (s : List Char) : List Char :=
  ((s.dropWhile pyIsSpace).reverse.dropWhile pyIsSpace).reverse

/-- `InputProcessor._normalize_text` (src/src/workflow/multi_prompt_system.py,
lines 330-343).  `none` models a non-string Python value (`None`, a number, an
absent field); `some []` is the empty string, which is falsy in Python and
returned as `""` before stripping.  Over-long stripped text is cut to
`max_length - 3` characters plus `"..."`. -/
def normalizeText (text : Option (List Char)) (maxLength : Nat) : List Char :=
  match text with
  | none => []
  | some t =>
    if t = [] then []
    else
      let t' := pyStrip t
      if maxLength < t'.length then t'.take (maxLength - 3) ++ ([ '.', '.', '.' ]) else t'

/-- A value found under a color key of the input dict: a string or any
non-string Python value. -/
inductive ColorVal where
  | str : List Char → ColorVal
  | other : ColorVal

/-- The hard-coded `default_colors` dict of `InputProcessor._extract_ci_colors`
(src/src/workflow/multi_prompt_system.py, lines 394-400), in insertion order. -/
def defaultCiColors : List (List Char × List Char) :=
  [(("primary").toList, ("#005EA5").toList),
   (("secondary").toList, ("#B4D9F7").toList),
   (("accent").toList, ("#FFC20E").toList),
   (("background").toList, ("#FFFFFF").toList),
   (("text").toList, ("#000000").toList)]

/-- The validation test of `InputProcessor._extract_ci_colors`:
`isinstance(color, str) and color.startswith('#') and len(color) in [4, 7]`
(the `isinstance` part is the `ColorVal.str` pattern at the call site). -/
def isValidCiColor (v : List Char) : Bool :=
  v.head? = some '#' && (v.length = 4 || v.length = 7)

/-- `InputProcessor._extract_ci_colors` (src/src/workflow/multi_prompt_system.py,
lines 392-412).  The input dict is modelled as a partial map from keys to
values; `colors.get(key, default_value)` is `(colors k).getD (ColorVal.str dv)`
and the default itself passes validation.  The result dict is built with
exactly the five default keys, in order. -/
def ciColorFor (colors : List Char → Option ColorVal) (k dv : List Char) : List Char :=
  match (colors k).getD (ColorVal.str dv) with
  | ColorVal.str v => if isValidCiColor v then v else dv
  | ColorVal.other => dv

/-- The result dict of `InputProcessor._extract_ci_colors`: built with exactly
the five default keys, in order, each mapped through the validation above. -/
def extractCiColors (colors : List Char → Option ColorVal) : List (List Char × List Char) :=
  defaultCiColors.map (fun kd => (kd.1, ciColorFor colors kd.1 kd.2))

/-- Lookup in an association list of strings (Python `d[key]`). -/
def lookupKey (l : List (List Char × List Char)) (k : List Char) : Option (List Char) :=
  match l with
  | [] => none
  | (k', v) :: t => if k' = k then some v else lookupKey t k

/-- First-occurrence split: `breakOn sep s = some (before, after)` when `sep`
occurs in `s` (Python `s.split(sep)` element boundaries), `none` otherwise. -/
def breakOn (sep : List Char) : List Char → Option (List Char × List Char)
  | [] => if sep <+: ([] : List Char) then some ([], []) else none
  | c :: t =>
    if sep <+: (c :: t) then some ([], (c :: t).drop sep.length)
    else
      match breakOn sep t with
      | none => none
      | some (a, b) => some (c :: a, b)

/-- Python `s.split(sep)[1]`: the second element of the split, `none` when the
separator does not occur (where Python raises `IndexError`). -/
def splitSecond (sep s : List Char) : Option (List Char) :=
  match breakOn sep s with
  | none => none
  | some (_, rest) =>
    match breakOn sep rest with
    | none => some rest
    | some (a, _) => some a

/-- Python `int(s)` on decimal literals: strip whitespace, optional sign,
digits; `none` where Python raises `ValueError`. -/
def pyInt (s : List Char) : Option Int :=
  let t := pyStrip s
  match t with
  | '-' :: r =>
    if r ≠ [] ∧ r.all Char.isDigit then
      some (-(r.foldl (fun n c => n * 10 + (c.toNat - 48)) 0 : Nat))
    else none
  | '+' :: r =>
    if r ≠ [] ∧ r.all Char.isDigit then
      some ((r.foldl (fun n c => n * 10 + (c.toNat - 48)) 0 : Nat) : Int)
    else none
  | _ =>
    if t ≠ [] ∧ t.all Char.isDigit then
      some ((t.foldl (fun n c => n * 10 + (c.toNat - 48)) 0 : Nat) : Int)
    else none

/-- One entry of the layout's `adaptive_rules` dict: optional `trigger` and
`action` keys (absent keys fall back to the hard-coded defaults at the call
sites in `_apply_adaptive_rules`). -/
structure AdaptiveRule where
  trigger : Option (List Char)
  action : Option (List Char)

/-- The `adaptive_rules` dict of a layout definition: the two keys
`_apply_adaptive_rules` looks for, each present or absent. -/
structure AdaptiveRules where
  longHeadline : Option AdaptiveRule
  manyBenefits : Option AdaptiveRule

/-- `int(rule.get('trigger', default).split('> ')[1])` from
`LayoutIntegrator._apply_adaptive_rules`. -/
def parseTriggerNum (defaultTrigger : List Char) (r : AdaptiveRule) : Option Int :=
  match splitSecond (("> ").toList) (r.trigger.getD defaultTrigger) with
  | none => none
  | some numStr => pyInt numStr

/-- The `long_headline` arm of `_apply_adaptive_rules`
(src/src/workflow/multi_prompt_system.py, lines 766-777): `none` models the
exception Python raises on an unparsable trigger. -/
def lhAdjustments (rule? : Option AdaptiveRule) (headline : List Char) :
    Option (List Adjustment) :=
  match rule? with
  | none => some []
  | some r =>
    match parseTriggerNum (("length > 50").toList) r with
    | none => none
    | some trig =>
      if (headline.length : Int) > trig then
        some [{ rule := ("long_headline").toList
                triggerInfo := ((headline.length : Int), trig)
                action := r.action.getD (("reduce_font_size").toList)
                applied := true }]
      else some []

/-- The `many_benefits` arm of `_apply_adaptive_rules`
(src/src/workflow/multi_prompt_system.py, lines 779-790). -/
def mbAdjustments (rule? : Option AdaptiveRule) (benefits : List (List Char)) :
    Option (List Adjustment) :=
  match rule? with
  | none => some []
  | some r =>
    match parseTriggerNum (("count > 5").toList) r with
    | none => none
    | some trig =>
      if (benefits.length : Int) > trig then
        some [{ rule := ("many_benefits").toList
                triggerInfo := ((benefits.length : Int), trig)
                action := r.action.getD (("truncate_with_ellipsis").toList)
                applied := true }]
      else some []

/-- `LayoutIntegrator._apply_adaptive_rules` (src/src/workflow/
multi_prompt_system.py, lines 761-792): the long-headline check followed by
the many-benefits check, collecting the appended adjustments in order. -/
def applyAdaptiveRules (rules : AdaptiveRules) (headline : List Char)
    (benefits : List (List Char)) : Option (List Adjustment) :=
  match lhAdjustments rules.longHeadline headline,
        mbAdjustments rules.manyBenefits benefits with
  | some a, some b => some (a ++ b)
  | _, _ => none

/-- `optimize_prompt_with_gpt4` (src/utils/gpt_utils.py, lines 321-352).
The environment and the network call are the two external inputs: `apiKey` is
`os.getenv("OPENAI_API_KEY")` (`none` when unset; the empty string is also
falsy and handled like unset), and `callResult` is the GPT-4 chat-completion
call, which either raises (`Except.error`) or returns the response content,
which the function strips before returning. -/
def optimizePromptWithGpt4 (apiKey : Option (List Char))
    (callResult : Except Unit (List Char)) (prompt : List Char) : List Char :=
  match apiKey with
  | none => prompt
  | some k =>
    if k = [] then prompt
    else
      match callResult with
      | Except.error _ => prompt
      | Except.ok content => pyStrip content

/-- The fields of `QualityWorkflowState`
(src/src/workflow/langgraph_quality_workflow.py, lines 50-82) that the
modelled workflow nodes read or write.  The history lists, timestamps and the
`final_result` payload are only appended to / logged and do not influence
control flow, so they are omitted.  Scores are Python ints (`Int`), the
attempt counters non-negative (`Nat`, defaults `current_attempt = 1`,
`max_attempts = 3`). -/
structure WState where
  currentAttempt : Nat
  maxAttempts : Nat
  targetQualityScore : Int
  currentQualityScore : Int
  currentPrompt : List Char
  optimizationStrategy : List Char
  workflowCompleted : Bool
  success : Bool

/-- The score-bracket strategy selection of `assess_quality_and_decide`
(src/src/workflow/langgraph_quality_workflow.py, lines 220-228). -/
def strategyFor (score : Int) : List Char :=
  if score < 60 then ("critical_optimization").toList
  else if score < 75 then ("structure_optimization").toList
  else if score < 85 then ("style_optimization").toList
  else ("fine_tuning").toList

/-- The score actually used by `assess_quality_and_decide`: a missing or zero
`current_quality_score` is replaced by the hard-coded fallback 87
(src/src/workflow/langgraph_quality_workflow.py, lines 197-200). -/
def fallbackScore (s : WState) : Int :=
  if s.currentQualityScore = 0 then 87 else s.currentQualityScore

/-- `assess_quality_and_decide` (src/src/workflow/langgraph_quality_workflow.py,
lines 188-235): replace a missing/zero score by the fallback 87, complete the
workflow with success when the score reaches the target, complete it without
success when the attempt counter has reached `max_attempts`, and otherwise
select the optimization strategy for the score bracket. -/
def assessQualityAndDecide (s : WState) : WState :=
  let score := fallbackScore s
  if s.targetQualityScore ≤ score then
    { s with currentQualityScore := score, success := true, workflowCompleted := true }
  else if s.maxAttempts ≤ s.currentAttempt then
    { s with currentQualityScore := score, success := false, workflowCompleted := true }
  else
    { s with currentQualityScore := score, optimizationStrategy := strategyFor score }

/-- Canned system message of `optimize_prompt_critical`
(src/src/workflow/langgraph_quality_workflow.py, lines 239-256). -/
def criticalOptimizationMessage : List Char :=
  ("Du bist ein Experte für kritische DALL-E 3 Prompt-Optimierung.\n" ++
   "Der folgende Prompt hat eine sehr niedrige Qualität (unter 60/100).\n\n" ++
   "KRITISCHE VERBESSERUNGEN:\n" ++
   "1. Struktur komplett überarbeiten\n" ++
   "2. Klare, präzise Anweisungen\n" ++
   "3. Professionelle Fotografie-Terminologie\n" ++
   "4. Layout-Struktur vereinfachen\n" ++
   "5. Negative Prompts optimieren\n\n" ++
   "Ziel: Qualität von unter 60 auf mindestens 75+ verbessern.").toList

/-- Canned system message of `optimize_prompt_structure`
(src/src/workflow/langgraph_quality_workflow.py, lines 275-295). -/
def structureOptimizationMessage : List Char :=
  ("Du bist ein Experte für DALL-E 3 Struktur-Optimierung.\n" ++
   "Der folgende Prompt hat mittlere Qualität (60-75/100).\n\n" ++
   "STRUKTUR-VERBESSERUNGEN:\n" ++
   "1. Layout-Struktur klarer definieren\n" ++
   "2. Zonen-Beschreibungen präzisieren\n" ++
   "3. Motiv-Integration verbessern\n" ++
   "4. Corporate Design stärker integrieren\n" ++
   "5. Komposition optimieren\n\n" ++
   "Ziel: Qualität von 60-75 auf mindestens 80+ verbessern.").toList

/-- Canned system message of `optimize_prompt_style`
(src/src/workflow/langgraph_quality_workflow.py, lines 315-335). -/
def styleOptimizationMessage : List Char :=
  ("Du bist ein Experte für DALL-E 3 Stil-Optimierung.\n" ++
   "Der folgende Prompt hat gute Qualität (75-85/100).\n\n" ++
   "STIL-VERBESSERUNGEN:\n" ++
   "1. Fotografie-Stil verfeinern\n" ++
   "2. Licht- und Kompositions-Details\n" ++
   "3. Professionalität erhöhen\n" ++
   "4. Corporate Branding verstärken\n" ++
   "5. Emotionale Tonalität optimieren\n\n" ++
   "Ziel: Qualität von 75-85 auf mindestens 85+ verbessern.").toList

/-- Canned system message of `optimize_prompt_fine_tuning`
(src/src/workflow/langgraph_quality_workflow.py, lines 355-375). -/
def fineTuningMessage : List Char :=
  ("Du bist ein Experte für DALL-E 3 Feintuning.\n" ++
   "Der folgende Prompt hat sehr gute Qualität (85+).\n\n" ++
   "FEINTUNING-VERBESSERUNGEN:\n" ++
   "1. Letzte Details verfeinern\n" ++
   "2. Professionalität maximieren\n" ++
   "3. Conversion-Optimierung\n" ++
   "4. Premium-Qualität erreichen\n" ++
   "5. Perfektion anstreben\n\n" ++
   "Ziel: Qualität von 85+ auf 90+ verbessern.").toList

/-- `optimize_prompt_critical` (3a): call GPT-4 with the critical system
message, increment the attempt counter by one, record the strategy.
`gpt` abstracts `optimize_prompt_with_gpt4 (prompt, system_message)`. -/
def optimizePromptCritical (gpt : List Char → List Char → List Char) (s : WState) : WState :=
  { s with currentPrompt := gpt criticalOptimizationMessage s.currentPrompt
           currentAttempt := s.currentAttempt + 1
           optimizationStrategy := ("critical_optimization").toList }

/-- `optimize_prompt_structure` (3b). -/
def optimizePromptStructure (gpt : List Char → List Char → List Char) (s : WState) : WState :=
  { s with currentPrompt := gpt structureOptimizationMessage s.currentPrompt
           currentAttempt := s.currentAttempt + 1
           optimizationStrategy := ("structure_optimization").toList }

/-- `optimize_prompt_style` (3c). -/
def optimizePromptStyle (gpt : List Char → List Char → List Char) (s : WState) : WState :=
  { s with currentPrompt := gpt styleOptimizationMessage s.currentPrompt
           currentAttempt := s.currentAttempt + 1
           optimizationStrategy := ("style_optimization").toList }

/-- `optimize_prompt_fine_tuning` (3d). -/
def optimizePromptFineTuning (gpt : List Char → List Char → List Char) (s : WState) : WState :=
  { s with currentPrompt := gpt fineTuningMessage s.currentPrompt
           currentAttempt := s.currentAttempt + 1
           optimizationStrategy := ("fine_tuning").toList }

/-- `reassess_quality` (src/src/workflow/langgraph_quality_workflow.py, lines
389-440): a new base score (from the cached quality assessment, or the
fallback 87 — abstracted by the caller-supplied oracle) plus the
strategy-dependent bonus, capped at 100. -/
def reassessQuality (baseScore : Int) (s : WState) : WState :=
  let bonus : Int :=
    if s.optimizationStrategy = ("critical_optimization").toList then 5
    else if s.optimizationStrategy = ("structure_optimization").toList then 3
    else if s.optimizationStrategy = ("style_optimization").toList then 2
    else if s.optimizationStrategy = ("fine_tuning").toList then 1
    else 0
  { s with currentQualityScore := min 100 (baseScore + bonus) }

/-- Where a conditional edge sends the workflow: `END` or a named node. -/
inductive RouteTarget where
  | toEnd : RouteTarget
  | toNode : List Char → RouteTarget
deriving DecidableEq

/-- `route_optimization` inside `create_quality_workflow`
(src/src/workflow/langgraph_quality_workflow.py, lines 481-498). -/
def routeOptimization (s : WState) : RouteTarget :=
  if s.workflowCompleted then RouteTarget.toEnd
  else if s.optimizationStrategy = ("critical_optimization").toList then
    RouteTarget.toNode (("optimize_critical").toList)
  else if s.optimizationStrategy = ("structure_optimization").toList then
    RouteTarget.toNode (("optimize_structure").toList)
  else if s.optimizationStrategy = ("style_optimization").toList then
    RouteTarget.toNode (("optimize_style").toList)
  else if s.optimizationStrategy = ("fine_tuning").toList then
    RouteTarget.toNode (("optimize_fine_tuning").toList)
  else RouteTarget.toEnd

/-- The retry loop of the compiled graph from the `assess_quality` node on
(`create_quality_workflow`, lines 459-509): assess, route, run the selected
optimization node, reassess, and loop back to assess.  `fuel` bounds the
number of assessment rounds attempted; `gpt` and `base` are the external
GPT-4 call and the reassessment base score (indexed by attempt number). -/
def runQualityLoop (gpt : List Char → List Char → List Char) (base : Nat → Int) :
    Nat → WState → WState
  | 0, s => s
  | Nat.succ fuel, s =>
    let s1 := assessQualityAndDecide s
    match routeOptimization s1 with
    | RouteTarget.toEnd => s1
    | RouteTarget.toNode name =>
      let s2 :=
        if name = ("optimize_critical").toList then optimizePromptCritical gpt s1
        else if name = ("optimize_structure").toList then optimizePromptStructure gpt s1
        else if name = ("optimize_style").toList then optimizePromptStyle gpt s1
        else optimizePromptFineTuning gpt s1
      let s3 := reassessQuality (base s2.currentAttempt) s2
      runQualityLoop gpt base fuel s3

/-- Fuel-indexed core of Python `s.replace(pat, rep)` (left-to-right,
non-overlapping): with fuel at least `s.length` it scans `s`, replacing each
leftmost occurrence of `pat` and continuing after the replaced stretch.
Structural in the fuel so that it is fully computable. -/
def pyReplaceF (pat rep : List Char) : Nat → List Char → List Char
  | _, [] => []
  | 0, s => s
  | Nat.succ n, c :: t =>
    if pat ≠ [] ∧ pat <+: (c :: t) then
      rep ++ pyReplaceF pat rep n ((c :: t).drop pat.length)
    else c :: pyReplaceF pat rep n t

/-- Python `s.replace(pat, rep)` for a nonempty pattern. -/
def pyReplace (pat rep s : List Char) : List Char :=
  pyReplaceF pat rep s.length s

/-- The CI-color placeholder `'{primary_color}'`. -/
def priPh : List Char := ("{primary_color}").toList

/-- The CI-color placeholder `'{secondary_color}'`. -/
def secPh : List Char := ("{secondary_color}").toList

/-- The CI-color placeholder `'{accent_color}'`. -/
def accPh : List Char := ("{accent_color}").toList

/-- The CI-color placeholder `'{background_color}'`. -/
def bgPh : List Char := ("{background_color}").toList

/-- The four CI-color placeholders of the layout templates. -/
def placeholders : List (List Char) := [priPh, secPh, accPh, bgPh]

/-- The dict key `'background_color'` treated specially by both traversals. -/
def bgKey : List Char := ("background_color").toList

/-- Generic replacement text for secondary-color banner backgrounds. -/
def professionalDark : List Char := ("professional dark background").toList

/-- Generic replacement text for primary-color banner backgrounds. -/
def professionalLight : List Char := ("professional light background").toList

/-- Generic replacement text for accent-color banner backgrounds. -/
def highlightedAccent : List Char := ("highlighted accent area").toList

/-- The string branch of `convert_colors` inside
`LayoutIntegrator._convert_banner_colors_to_generic`
(src/src/workflow/multi_prompt_system.py, lines 544-550): when the string
mentions `background_color`, the secondary, primary and accent placeholders
(in that order) are replaced by generic descriptions; note that the
`{background_color}` placeholder itself is not replaced here. -/
def convertStr (s : List Char) : List Char :=
  if bgKey <:+: s then
    pyReplace accPh highlightedAccent
      (pyReplace priPh professionalLight (pyReplace secPh professionalDark s))
  else s

mutual

/-- `convert_colors` inside `_convert_banner_colors_to_generic`
(src/src/workflow/multi_prompt_system.py, lines 525-556). -/
def convertVal : Val → Val
  | Val.str s => Val.str (convertStr s)
  | Val.dict kvs => Val.dict (convertEntries kvs)
  | Val.list vs => Val.list (convertList vs)
  | Val.other => Val.other

/-- The dict branch of `convert_colors`: a string under the
`background_color` key whose value mentions a color placeholder is replaced
wholesale by the generic description; every other entry is converted
recursively (for a string value that is `convert_colors(value)`, the string
branch). -/
def convertEntries : ValEntries → ValEntries
  | ValEntries.nil => ValEntries.nil
  | ValEntries.cons k v t =>
    ValEntries.cons k
      (if k = bgKey then
        match v with
        | Val.str sv =>
          if secPh <:+: sv then Val.str professionalDark
          else if priPh <:+: sv then Val.str professionalLight
          else if accPh <:+: sv then Val.str highlightedAccent
          else convertVal v
        | _ => convertVal v
      else convertVal v)
      (convertEntries t)

/-- The list branch of `convert_colors`. -/
def convertList : ValList → ValList
  | ValList.nil => ValList.nil
  | ValList.cons v t => ValList.cons (convertVal v) (convertList t)

end

/-- `LayoutIntegrator._convert_banner_colors_to_generic`
(src/src/workflow/multi_prompt_system.py, lines 525-556): a deep copy of the
layout definition with `convert_colors` applied. -/
def convertBannerColorsToGeneric (layout : Val) : Val :=
  convertVal layout

/-- The guarded placeholder replacement of the string branch of
`replace_colors`: `if placeholder in obj: obj = obj.replace(placeholder,
color)`. -/
def condReplace (ph rep s : List Char) : List Char :=
  if ph <:+: s then pyReplace ph rep s else s

/-- The hard-coded `color_mapping` dict of
`LayoutIntegrator._resolve_layout_colors`
(src/src/workflow/multi_prompt_system.py, lines 573-595), in insertion
order. -/
def colorMapping (primary secondary accent : List Char) :
    List (List Char × List Char) :=
  [(("#000000").toList, primary), (("#333333").toList, primary),
   (("#777777").toList, secondary), (("#666666").toList, secondary),
   (("#00B5E2").toList, primary), (("#0088CC").toList, primary),
   (("#FFC20E").toList, accent), (("#FFB300").toList, accent),
   (("#EEEEEE").toList, secondary), (("#F5F5F5").toList, secondary)]

/-- The string branch of `replace_colors` inside
`LayoutIntegrator._resolve_layout_colors`
(src/src/workflow/multi_prompt_system.py, lines 618-634): the four
placeholders are replaced (each guarded by a containment test), then the
hard-coded standard colors are replaced cumulatively in mapping order. -/
def resolveStr (P S A B s : List Char) : List Char :=
  (colorMapping P S A).foldl
    (fun cur pr => if pr.1 <:+: cur then pyReplace pr.1 pr.2 cur else cur)
    (condReplace bgPh B (condReplace accPh A (condReplace secPh S (condReplace priPh P s))))

/-- The `background_color` dict branch of `replace_colors`
(src/src/workflow/multi_prompt_system.py, lines 600-612): an `elif` chain
replaces only the first placeholder kind found; with no placeholder, the
hard-coded mapping loop runs, but each iteration replaces in the ORIGINAL
value, so only the last matching entry takes effect (a bug preserved from
the source). -/
def resolveBgValue (P S A B s : List Char) : List Char :=
  if priPh <:+: s then pyReplace priPh P s
  else if secPh <:+: s then pyReplace secPh S s
  else if accPh <:+: s then pyReplace accPh A s
  else if bgPh <:+: s then pyReplace bgPh B s
  else
    (colorMapping P S A).foldl
      (fun cur pr => if pr.1 <:+: s then pyReplace pr.1 pr.2 s else cur) s

mutual

/-- `replace_colors` inside `LayoutIntegrator._resolve_layout_colors`
(src/src/workflow/multi_prompt_system.py, lines 598-637). -/
def resolveVal (P S A B : List Char) : Val → Val
  | Val.str s => Val.str (resolveStr P S A B s)
  | Val.dict kvs => Val.dict (resolveEntries P S A B kvs)
  | Val.list vs => Val.list (resolveList P S A B vs)
  | Val.other => Val.other

/-- The dict branch of `replace_colors`: a string under the
`background_color` key runs the `elif` chain and is then itself passed to
`replace_colors` again (`obj[key] = replace_colors(obj[key])`), which for a
string is the string branch; other entries recurse. -/
def resolveEntries (P S A B : List Char) : ValEntries → ValEntries
  | ValEntries.nil => ValEntries.nil
  | ValEntries.cons k v t =>
    ValEntries.cons k
      (if k = bgKey then
        match v with
        | Val.str sv => Val.str (resolveStr P S A B (resolveBgValue P S A B sv))
        | _ => resolveVal P S A B v
      else resolveVal P S A B v)
      (resolveEntries P S A B t)

/-- The list branch of `replace_colors`. -/
def resolveList (P S A B : List Char) : ValList → ValList
  | ValList.nil => ValList.nil
  | ValList.cons v t => ValList.cons (resolveVal P S A B v) (resolveList P S A B t)

end

/-- `LayoutIntegrator._resolve_layout_colors`
(src/src/workflow/multi_prompt_system.py, lines 558-640): extract the four
CI colors (with the hard-coded defaults) and run `replace_colors` over a
deep copy of the layout definition. -/
def resolveLayoutColors (ciColors : List Char → Option (List Char)) (layout : Val) : Val :=
  resolveVal ((ciColors (("primary").toList)).getD (("#005EA5").toList))
    ((ciColors (("secondary").toList)).getD (("#B4D9F7").toList))
    ((ciColors (("accent").toList)).getD (("#FFC20E").toList))
    ((ciColors (("background").toList)).getD (("#FFFFFF").toList))
    layout

mutual

/-- All string values appearing anywhere in a nested layout value
(dict values, list elements, plain strings, at any depth). -/
def stringsOf : Val → List (List Char)
  | Val.str s => [s]
  | Val.dict kvs => stringsOfEntries kvs
  | Val.list vs => stringsOfList vs
  | Val.other => []

/-- String values of dict entries. -/
def stringsOfEntries : ValEntries → List (List Char)
  | ValEntries.nil => []
  | ValEntries.cons _ v t => stringsOf v ++ stringsOfEntries t

/-- String values of list elements. -/
def stringsOfList : ValList → List (List Char)
  | ValList.nil => []
  | ValList.cons v t => stringsOf v ++ stringsOfList t

end

/-- The entry transformation of `resolveEntries`, as a standalone function
(definitionally what `resolveEntries` does to each entry). -/
def resolveEntryVal (P S A B : List Char) (k : List Char) (v : Val) : Val :=
  if k = bgKey then
    match v with
    | Val.str sv => Val.str (resolveStr P S A B (resolveBgValue P S A B sv))
    | _ => resolveVal P S A B v
  else resolveVal P S A B v

/-- Shape shared by the four placeholders: they start with `'{'`, end with
`'}'` and have at least two characters. -/
def phShape (pat : List Char) : Prop :=
  pat.head? = some '{' ∧ pat.getLast? = some '}' ∧ 2 ≤ pat.length

/-- Conditions on a replacement string under which Python `replace` cannot
leave or create an occurrence of `pat`: no braces, and some character (for
CI colors: `'#'`) that does not occur in `pat`. -/
def goodRep (pat rep : List Char) : Prop :=
  '{' ∉ rep ∧ '}' ∉ rep ∧ ∃ c ∈ rep, c ∉ pat

/-- Conditions on a CI color string under which placeholder resolution is
complete: no brace characters and a `'#'` (every color accepted by
`_extract_ci_colors` starts with `'#'`; containing no braces is the extra
condition the amended claim needs). -/
def goodColor (c : List Char) : Prop :=
  '{' ∉ c ∧ '}' ∉ c ∧ '#' ∈ c

mutual

/-- Structural size of a nested layout value (used as induction measure). -/
def valSize : Val → Nat
  | Val.str _ => 1
  | Val.dict kvs => 1 + entriesSize kvs
  | Val.list vs => 1 + listSize vs
  | Val.other => 1

/-- Structural size of dict entries. -/
def entriesSize : ValEntries → Nat
  | ValEntries.nil => 1
  | ValEntries.cons _ v t => 1 + valSize v + entriesSize t

/-- Structural size of list elements. -/
def listSize : ValList → Nat
  | ValList.nil => 1
  | ValList.cons v t => 1 + valSize v + listSize t

end

/-- C3: for every layout-integrated input and every pair of generated prompts,
the overall quality score computed by `PromptFinalizer._assess_overall_quality`
(the integer average of the five sub-scores) is an integer between 0 and 100
inclusive. -/
theorem assess_overall_quality_in_0_100 (layoutDefinition : List (List Char × Val))
    (textPlacements : List (List Char × Val)) (adaptiveAdjustments : List Adjustment)
    (mjPrompt dallePrompt : List Char) :
    0 ≤ (assessOverallQuality layoutDefinition textPlacements adaptiveAdjustments
          mjPrompt dallePrompt).overallScore ∧
    (assessOverallQuality layoutDefinition textPlacements adaptiveAdjustments
          mjPrompt dallePrompt).overallScore ≤ 100 := by
  unfold assessOverallQuality
  refine ⟨Nat.zero_le _, ?_⟩
  have h1 : (if layoutDefinition.isEmpty then 50 else 90) ≤ 90 := by split <;> omega
  have h2 : min 100 (textPlacements.length * 20) ≤ 100 := Nat.min_le_left _ _
  have h3 : (if 200 ≤ mjPrompt.length ∧ mjPrompt.length ≤ 800 then 90 else 70) ≤ 90 := by
    split <;> omega
  have h4 : (if dallePrompt.length ≤ 4000 then 95 else 50) ≤ 95 := by split <;> omega
  have h5 : (if adaptiveAdjustments.isEmpty then 80 else 100) ≤ 100 := by split <;> omega
  simp only
  omega

/-- C10: the overall quality score returned by
`PromptFinalizer._assess_overall_quality` always lies between 50 and 95
inclusive (so it can never reach 100 and never falls below 50), because each
sub-score is drawn from a fixed two-valued or capped range. -/
theorem assess_overall_quality_in_50_95 (layoutDefinition : List (List Char × Val))
    (textPlacements : List (List Char × Val)) (adaptiveAdjustments : List Adjustment)
    (mjPrompt dallePrompt : List Char) :
    50 ≤ (assessOverallQuality layoutDefinition textPlacements adaptiveAdjustments
          mjPrompt dallePrompt).overallScore ∧
    (assessOverallQuality layoutDefinition textPlacements adaptiveAdjustments
          mjPrompt dallePrompt).overallScore ≤ 95 := by
  unfold assessOverallQuality
  have h1a : 50 ≤ (if layoutDefinition.isEmpty then 50 else 90) := by split <;> omega
  have h1b : (if layoutDefinition.isEmpty then 50 else 90) ≤ 90 := by split <;> omega
  have h2a : 0 ≤ min 100 (textPlacements.length * 20) := Nat.zero_le _
  have h2b : min 100 (textPlacements.length * 20) ≤ 100 := Nat.min_le_left _ _
  have h3a : 70 ≤ (if 200 ≤ mjPrompt.length ∧ mjPrompt.length ≤ 800 then 90 else 70) := by
    split <;> omega
  have h3b : (if 200 ≤ mjPrompt.length ∧ mjPrompt.length ≤ 800 then 90 else 70) ≤ 90 := by
    split <;> omega
  have h4a : 50 ≤ (if dallePrompt.length ≤ 4000 then 95 else 50) := by split <;> omega
  have h4b : (if dallePrompt.length ≤ 4000 then 95 else 50) ≤ 95 := by split <;> omega
  have h5a : 80 ≤ (if adaptiveAdjustments.isEmpty then 80 else 100) := by split <;> omega
  have h5b : (if adaptiveAdjustments.isEmpty then 80 else 100) ≤ 100 := by split <;> omega
  simp only
  omega


/-- C4: `InputProcessor._normalize_text` caps string length: for `max_length`
at least 4, non-string (`none`) or empty inputs yield the empty string, the
result never exceeds `max_length` characters, inputs whose stripped form fits
are returned stripped and unchanged, and longer inputs become the first
`max_length - 3` characters plus `"..."`, of length exactly `max_length`. -/
theorem normalize_text_caps_length (t : List Char) (maxLength : Nat) (h : 4 ≤ maxLength) :
    (normalizeText none maxLength = [] ∧ normalizeText (some []) maxLength = []) ∧
    (normalizeText (some t) maxLength).length ≤ maxLength ∧
    ((pyStrip t).length ≤ maxLength → normalizeText (some t) maxLength = pyStrip t) ∧
    (maxLength < (pyStrip t).length →
      normalizeText (some t) maxLength = (pyStrip t).take (maxLength - 3) ++ ([ '.', '.', '.' ]) ∧
      (normalizeText (some t) maxLength).length = maxLength) := by
  have hstripnil : pyStrip ([] : List Char) = [] := rfl
  refine ⟨⟨rfl, rfl⟩, ?_, ?_, ?_⟩
  · by_cases he : t = []
    · subst he; simp [normalizeText]
    · simp only [normalizeText, if_neg he]
      by_cases hl : maxLength < (pyStrip t).length
      · rw [if_pos hl, List.length_append, List.length_take,
          Nat.min_eq_left (by omega : maxLength - 3 ≤ (pyStrip t).length)]
        simp only [List.length_cons, List.length_nil]
        omega
      · rw [if_neg hl]; omega
  · intro hle
    by_cases he : t = []
    · subst he; rw [hstripnil]; rfl
    · simp only [normalizeText, if_neg he]
      rw [if_neg (by omega : ¬ maxLength < (pyStrip t).length)]
  · intro hl
    have he : t ≠ [] := by
      rintro rfl
      rw [hstripnil] at hl
      simp at hl
    constructor
    · simp only [normalizeText, if_neg he, if_pos hl]
    · simp only [normalizeText, if_neg he, if_pos hl, List.length_append,
        List.length_take, List.length_cons, List.length_nil]
      rw [Nat.min_eq_left (by omega : maxLength - 3 ≤ (pyStrip t).length)]
      omega

/-- C4 witness: concrete evaluation of the theorem at `"abcdefgh"` with
`max_length = 5`. -/
theorem normalize_text_caps_length_witness :
    4 ≤ 5 ∧
    ((normalizeText none 5 = [] ∧ normalizeText (some []) 5 = []) ∧
    (normalizeText (some (("abcdefgh").toList)) 5).length ≤ 5 ∧
    ((pyStrip (("abcdefgh").toList)).length ≤ 5 →
      normalizeText (some (("abcdefgh").toList)) 5 = pyStrip (("abcdefgh").toList)) ∧
    (5 < (pyStrip (("abcdefgh").toList)).length →
      normalizeText (some (("abcdefgh").toList)) 5 =
        (pyStrip (("abcdefgh").toList)).take 2 ++ ([ '.', '.', '.' ]) ∧
      (normalizeText (some (("abcdefgh").toList)) 5).length = 5)) :=
  ⟨by decide, normalize_text_caps_length (("abcdefgh").toList) 5 (by decide)⟩

/-- Looking up any of the five default keys in the result of
`_extract_ci_colors` yields that key's validated color. -/
theorem lookupKey_extractCiColors (colors : List Char → Option ColorVal)
    (k dv : List Char) (hmem : (k, dv) ∈ defaultCiColors) :
    lookupKey (extractCiColors colors) k = some (ciColorFor colors k dv) := by
  simp only [defaultCiColors, List.mem_cons, List.not_mem_nil, or_false,
    Prod.mk.injEq] at hmem
  rcases hmem with ⟨rfl, rfl⟩ | ⟨rfl, rfl⟩ | ⟨rfl, rfl⟩ | ⟨rfl, rfl⟩ | ⟨rfl, rfl⟩ <;> rfl

/-- C5: `InputProcessor._extract_ci_colors` returns a dict with exactly the
five keys `primary`, `secondary`, `accent`, `background`, `text`; each value
is the caller-supplied color when that color is a string starting with `'#'`
of length 4 or 7, and the hard-coded default for that key otherwise
(non-string value, invalid string, or absent key). -/
theorem extract_ci_colors_defaults (colors : List Char → Option ColorVal) :
    (extractCiColors colors).map Prod.fst = defaultCiColors.map Prod.fst ∧
    (∀ k dv, (k, dv) ∈ defaultCiColors →
      (∀ v, colors k = some (ColorVal.str v) → isValidCiColor v = true →
        lookupKey (extractCiColors colors) k = some v) ∧
      (∀ v, colors k = some (ColorVal.str v) → isValidCiColor v = false →
        lookupKey (extractCiColors colors) k = some dv) ∧
      (colors k = some ColorVal.other → lookupKey (extractCiColors colors) k = some dv) ∧
      (colors k = none → lookupKey (extractCiColors colors) k = some dv)) := by
  constructor
  · rfl
  · intro k dv hmem
    have hl := lookupKey_extractCiColors colors k dv hmem
    refine ⟨?_, ?_, ?_, ?_⟩
    · intro v hv hval
      rw [hl]
      simp [ciColorFor, hv, hval]
    · intro v hv hval
      rw [hl]
      simp [ciColorFor, hv, hval]
    · intro hv
      rw [hl]
      simp [ciColorFor, hv]
    · intro hv
      rw [hl]
      simp [ciColorFor, hv]

/-- C5 witness: concrete evaluation with a valid accent color, an invalid
primary color and the other keys absent. -/
theorem extract_ci_colors_defaults_witness :
    (extractCiColors (fun k =>
      if k = ("accent").toList then some (ColorVal.str (("#123").toList))
      else if k = ("primary").toList then some (ColorVal.str (("red").toList))
      else none)).map Prod.fst = defaultCiColors.map Prod.fst := by
  have := extract_ci_colors_defaults (fun k =>
      if k = ("accent").toList then some (ColorVal.str (("#123").toList))
      else if k = ("primary").toList then some (ColorVal.str (("red").toList))
      else none)
  exact this.1


/-- The result of `_normalize_text` never exceeds `max_length` characters,
for any `max_length` of at least 4. -/
theorem normalizeText_length_le (t : Option (List Char)) (m : Nat) (h4 : 4 ≤ m) :
    (normalizeText t m).length ≤ m := by
  cases t with
  | none => simp [normalizeText]
  | some t =>
    by_cases he : t = []
    · subst he; simp [normalizeText]
    · simp only [normalizeText, if_neg he]
      by_cases hl : m < (pyStrip t).length
      · rw [if_pos hl, List.length_append, List.length_take,
          Nat.min_eq_left (by omega : m - 3 ≤ (pyStrip t).length)]
        simp only [List.length_cons, List.length_nil]
        omega
      · rw [if_neg hl]; omega

/-- When the `long_headline` rule is present and its trigger parses, the
long-headline arm appends its adjustment exactly when the headline is longer
than the trigger. -/
theorem lhAdjustments_spec (rule? : Option AdaptiveRule) (r : AdaptiveRule)
    (headline : List Char) (trig : Int) (hr : rule? = some r)
    (hp : parseTriggerNum (("length > 50").toList) r = some trig) :
    lhAdjustments rule? headline =
      some (if (headline.length : Int) > trig then
        [{ rule := ("long_headline").toList
           triggerInfo := ((headline.length : Int), trig)
           action := r.action.getD (("reduce_font_size").toList)
           applied := true }]
      else []) := by
  subst hr
  simp only [lhAdjustments, hp]
  split <;> rfl

/-- When the `many_benefits` rule is present and its trigger parses, the
many-benefits arm appends its adjustment exactly when there are more benefits
than the trigger. -/
theorem mbAdjustments_spec (rule? : Option AdaptiveRule) (r : AdaptiveRule)
    (benefits : List (List Char)) (trig : Int) (hr : rule? = some r)
    (hp : parseTriggerNum (("count > 5").toList) r = some trig) :
    mbAdjustments rule? benefits =
      some (if (benefits.length : Int) > trig then
        [{ rule := ("many_benefits").toList
           triggerInfo := ((benefits.length : Int), trig)
           action := r.action.getD (("truncate_with_ellipsis").toList)
           applied := true }]
      else []) := by
  subst hr
  simp only [mbAdjustments, hp]
  split <;> rfl

/-- Every adjustment produced by the long-headline arm is tagged
`long_headline`. -/
theorem lhAdjustments_all_rule (rule? : Option AdaptiveRule) (headline : List Char)
    (l : List Adjustment) (h : lhAdjustments rule? headline = some l) :
    ∀ a ∈ l, a.rule = ("long_headline").toList := by
  cases rule? with
  | none =>
    simp only [lhAdjustments, Option.some.injEq] at h
    subst h; simp
  | some r =>
    cases hp : parseTriggerNum (("length > 50").toList) r with
    | none =>
      simp only [lhAdjustments, hp] at h
      exact absurd h (by simp)
    | some trig =>
      rw [lhAdjustments_spec (some r) r headline trig rfl hp] at h
      simp only [Option.some.injEq] at h
      subst h
      by_cases hc : (headline.length : Int) > trig
      · rw [if_pos hc]
        intro a ha
        simp only [List.mem_singleton] at ha
        subst ha; rfl
      · rw [if_neg hc]
        simp

/-- Every adjustment produced by the many-benefits arm is tagged
`many_benefits`. -/
theorem mbAdjustments_all_rule (rule? : Option AdaptiveRule) (benefits : List (List Char))
    (l : List Adjustment) (h : mbAdjustments rule? benefits = some l) :
    ∀ a ∈ l, a.rule = ("many_benefits").toList := by
  cases rule? with
  | none =>
    simp only [mbAdjustments, Option.some.injEq] at h
    subst h; simp
  | some r =>
    cases hp : parseTriggerNum (("count > 5").toList) r with
    | none =>
      simp only [mbAdjustments, hp] at h
      exact absurd h (by simp)
    | some trig =>
      rw [mbAdjustments_spec (some r) r benefits trig rfl hp] at h
      simp only [Option.some.injEq] at h
      subst h
      by_cases hc : (benefits.length : Int) > trig
      · rw [if_pos hc]
        intro a ha
        simp only [List.mem_singleton] at ha
        subst ha; rfl
      · rw [if_neg hc]
        simp

/-- C7: when `_apply_adaptive_rules` succeeds, a `long_headline` adjustment
(carrying the rule's action, default `reduce_font_size`) is in the result if
and only if the headline length strictly exceeds the parsed trigger (default
50), and a `many_benefits` adjustment (action default
`truncate_with_ellipsis`) is in the result if and only if the benefit count
strictly exceeds its parsed trigger (default 5). -/
theorem apply_adaptive_rules_iff (rules : AdaptiveRules) (headline : List Char)
    (benefits : List (List Char)) (adjs : List Adjustment)
    (hres : applyAdaptiveRules rules headline benefits = some adjs) :
    (∀ r trig, rules.longHeadline = some r →
      parseTriggerNum (("length > 50").toList) r = some trig →
      ((headline.length : Int) > trig ↔
        ∃ a ∈ adjs, a.rule = ("long_headline").toList ∧
          a.action = r.action.getD (("reduce_font_size").toList))) ∧
    (∀ r trig, rules.manyBenefits = some r →
      parseTriggerNum (("count > 5").toList) r = some trig →
      ((benefits.length : Int) > trig ↔
        ∃ a ∈ adjs, a.rule = ("many_benefits").toList ∧
          a.action = r.action.getD (("truncate_with_ellipsis").toList))) := by
  constructor
  · intro r trig hr hp
    have hlh := lhAdjustments_spec rules.longHeadline r headline trig hr hp
    unfold applyAdaptiveRules at hres
    rw [hlh] at hres
    cases hmb : mbAdjustments rules.manyBenefits benefits with
    | none => rw [hmb] at hres; exact absurd hres (by simp)
    | some b =>
      rw [hmb] at hres
      simp only [Option.some.injEq] at hres
      subst hres
      by_cases hc : (headline.length : Int) > trig
      · rw [if_pos hc]
        constructor
        · intro _
          refine ⟨_, List.mem_append_left _ (List.mem_singleton_self _), rfl, rfl⟩
        · intro _; exact hc
      · rw [if_neg hc]
        simp only [List.nil_append]
        constructor
        · intro h; exact absurd h hc
        · rintro ⟨a, ha, harule, -⟩
          have hmbr := mbAdjustments_all_rule rules.manyBenefits benefits b hmb a ha
          rw [harule] at hmbr
          exact absurd hmbr (by decide)
  · intro r trig hr hp
    have hmb := mbAdjustments_spec rules.manyBenefits r benefits trig hr hp
    unfold applyAdaptiveRules at hres
    rw [hmb] at hres
    cases hlh : lhAdjustments rules.longHeadline headline with
    | none => rw [hlh] at hres; exact absurd hres (by simp)
    | some la =>
      rw [hlh] at hres
      simp only [Option.some.injEq] at hres
      subst hres
      by_cases hc : (benefits.length : Int) > trig
      · rw [if_pos hc]
        constructor
        · intro _
          refine ⟨_, List.mem_append_right _ (List.mem_singleton_self _), rfl, rfl⟩
        · intro _; exact hc
      · rw [if_neg hc]
        simp only [List.append_nil]
        constructor
        · intro h; exact absurd h hc
        · rintro ⟨a, ha, harule, -⟩
          have hlhr := lhAdjustments_all_rule rules.longHeadline headline la hlh a ha
          rw [harule] at hlhr
          exact absurd hlhr (by decide)

/-- C7 witness: a rule set with explicit triggers 10 and 5, a 15-character
headline and six benefits, so both adjustments fire. -/
theorem apply_adaptive_rules_iff_witness :
    ((("aaaaaaaaaaaaaaa").toList.length : Int) > 10 ↔
      ∃ a ∈ [({ rule := ("long_headline").toList
                triggerInfo := ((15 : Int), (10 : Int))
                action := ("reduce_font_size").toList
                applied := true } : Adjustment),
             ({ rule := ("many_benefits").toList
                triggerInfo := ((6 : Int), (5 : Int))
                action := ("truncate_with_ellipsis").toList
                applied := true } : Adjustment)],
        a.rule = ("long_headline").toList ∧
          a.action = (Option.none).getD (("reduce_font_size").toList)) := by
  have h := apply_adaptive_rules_iff
    { longHeadline := some { trigger := some (("length > 10").toList), action := none }
      manyBenefits := some { trigger := none, action := none } }
    (("aaaaaaaaaaaaaaa").toList)
    [("a").toList, ("b").toList, ("c").toList, ("d").toList, ("e").toList, ("f").toList]
    [({ rule := ("long_headline").toList
        triggerInfo := ((15 : Int), (10 : Int))
        action := ("reduce_font_size").toList
        applied := true } : Adjustment),
     ({ rule := ("many_benefits").toList
        triggerInfo := ((6 : Int), (5 : Int))
        action := ("truncate_with_ellipsis").toList
        applied := true } : Adjustment)]
    (by decide)
  exact h.1 _ 10 rfl (by decide)

/-- C9: for headlines produced by `InputProcessor.process` (normalized with
`max_length = 50`), a `long_headline` rule with the default trigger
`length > 50` never fires: the result of `_apply_adaptive_rules` contains no
`long_headline` adjustment. -/
theorem pipeline_headline_rule_unreachable (raw : Option (List Char))
    (rules : AdaptiveRules) (r : AdaptiveRule) (hr : rules.longHeadline = some r)
    (htrig : r.trigger = none) (benefits : List (List Char)) (adjs : List Adjustment)
    (hres : applyAdaptiveRules rules (normalizeText raw 50) benefits = some adjs) :
    ∀ a ∈ adjs, a.rule ≠ ("long_headline").toList := by
  have hparse : parseTriggerNum (("length > 50").toList) r = some 50 := by
    unfold parseTriggerNum
    rw [htrig]
    rfl
  have hlen : (normalizeText raw 50).length ≤ 50 := normalizeText_length_le raw 50 (by omega)
  have hc : ¬ ((normalizeText raw 50).length : Int) > 50 := by
    omega
  have hlh : lhAdjustments rules.longHeadline (normalizeText raw 50) = some [] := by
    rw [lhAdjustments_spec rules.longHeadline r (normalizeText raw 50) 50 hr hparse,
      if_neg hc]
  unfold applyAdaptiveRules at hres
  rw [hlh] at hres
  cases hmb : mbAdjustments rules.manyBenefits benefits with
  | none => rw [hmb] at hres; exact absurd hres (by simp)
  | some b =>
    rw [hmb] at hres
    simp only [Option.some.injEq, List.nil_append] at hres
    subst hres
    intro a ha
    have hmbr := mbAdjustments_all_rule rules.manyBenefits benefits b hmb a ha
    rw [hmbr]
    decide

/-- C9 witness: a 60-character raw headline (truncated to 50 by the input
processor) with a default-trigger rule: the adjustment list is empty and
carries no `long_headline` entry. -/
theorem pipeline_headline_rule_unreachable_witness :
    (applyAdaptiveRules
        { longHeadline := some { trigger := none, action := none }, manyBenefits := none }
        (normalizeText
          (some (("aaaaaaaaaaaaaaaaaaaaaaaaaaaaaaaaaaaaaaaaaaaaaaaaaaaaaaaaaaaa").toList))
          50) [] = some []) ∧
    (∀ a ∈ ([] : List Adjustment), a.rule ≠ ("long_headline").toList) :=
  ⟨by decide,
    pipeline_headline_rule_unreachable
      (some (("aaaaaaaaaaaaaaaaaaaaaaaaaaaaaaaaaaaaaaaaaaaaaaaaaaaaaaaaaaaa").toList))
      { longHeadline := some { trigger := none, action := none }, manyBenefits := none }
      { trigger := none, action := none } rfl rfl [] [] (by decide)⟩

/-- C8: if the `OPENAI_API_KEY` environment variable is unset or the GPT-4
chat-completion call raises, `optimize_prompt_with_gpt4` returns its input
prompt unchanged instead of raising. -/
theorem optimize_prompt_with_gpt4_fallback (apiKey : Option (List Char))
    (callResult : Except Unit (List Char)) (prompt : List Char)
    (h : apiKey = none ∨ ∃ e, callResult = Except.error e) :
    optimizePromptWithGpt4 apiKey callResult prompt = prompt := by
  rcases h with h | ⟨e, h⟩
  · subst h; rfl
  · subst h
    cases apiKey with
    | none => rfl
    | some k =>
      by_cases hk : k = []
      · simp [optimizePromptWithGpt4, hk]
      · simp [optimizePromptWithGpt4, hk]

/-- C8 witness: a failing call with a set key returns the prompt unchanged. -/
theorem optimize_prompt_with_gpt4_fallback_witness :
    optimizePromptWithGpt4 (some (("sk-key").toList)) (Except.error ())
      (("a photo").toList) = (("a photo").toList) :=
  optimize_prompt_with_gpt4_fallback (some (("sk-key").toList)) (Except.error ())
    (("a photo").toList) (Or.inr ⟨(), rfl⟩)


/-- When `assess_quality_and_decide` does not complete the workflow, it leaves
the attempt counter and limit unchanged, the attempt counter is still below
the limit, and the strategy is the score bracket of the (fallback-adjusted)
score. -/
theorem assess_continue_spec (s : WState)
    (h : (assessQualityAndDecide s).workflowCompleted = false) :
    (assessQualityAndDecide s).currentAttempt = s.currentAttempt ∧
    (assessQualityAndDecide s).maxAttempts = s.maxAttempts ∧
    s.currentAttempt < s.maxAttempts ∧
    (assessQualityAndDecide s).optimizationStrategy = strategyFor (fallbackScore s) := by
  simp only [assessQualityAndDecide] at h ⊢
  split_ifs at h ⊢ with h1 h2
  exact ⟨rfl, rfl, by omega, rfl⟩

/-- The bracket selection always picks one of the four strategies. -/
theorem strategyFor_cases (score : Int) :
    strategyFor score = ("critical_optimization").toList ∨
    strategyFor score = ("structure_optimization").toList ∨
    strategyFor score = ("style_optimization").toList ∨
    strategyFor score = ("fine_tuning").toList := by
  unfold strategyFor
  split_ifs <;> tauto

/-- A non-completed assessment is always routed to some optimization node
(never to `END`). -/
theorem route_continue_exists (s : WState)
    (h : (assessQualityAndDecide s).workflowCompleted = false) :
    ∃ name, routeOptimization (assessQualityAndDecide s) = RouteTarget.toNode name := by
  obtain ⟨-, -, -, hstr⟩ := assess_continue_spec s h
  unfold routeOptimization
  rw [h]
  rcases strategyFor_cases (fallbackScore s) with h4 | h4 | h4 | h4 <;>
    rw [hstr, h4] <;> exact ⟨_, rfl⟩

/-- With fuel `max_attempts + 1 - current_attempt`, the loop always reaches a
completed state: every optimization round increments the attempt counter, and
assessment completes at the latest when the counter reaches the limit. -/
theorem runQualityLoop_completes (gpt : List Char → List Char → List Char)
    (base : Nat → Int) :
    ∀ fuel s, s.currentAttempt ≤ s.maxAttempts →
      fuel = s.maxAttempts + 1 - s.currentAttempt →
      (runQualityLoop gpt base fuel s).workflowCompleted = true := by
  intro fuel
  induction fuel with
  | zero =>
    intro s h1 h2
    omega
  | succ n ih =>
    intro s h1 h2
    by_cases hc : (assessQualityAndDecide s).workflowCompleted = true
    · have hroute : routeOptimization (assessQualityAndDecide s) = RouteTarget.toEnd := by
        unfold routeOptimization
        rw [hc]
        rfl
      simp only [runQualityLoop, hroute]
      exact hc
    · replace hc : (assessQualityAndDecide s).workflowCompleted = false := by
        simp only [Bool.not_eq_true] at hc
        exact hc
      obtain ⟨hatt, hmax, hlt, -⟩ := assess_continue_spec s hc
      obtain ⟨name, hroute⟩ := route_continue_exists s hc
      simp only [runQualityLoop, hroute]
      apply ih
      · split_ifs <;>
          simp only [reassessQuality, optimizePromptCritical, optimizePromptStructure,
            optimizePromptStyle, optimizePromptFineTuning] <;>
          omega
      · split_ifs <;>
          simp only [reassessQuality, optimizePromptCritical, optimizePromptStructure,
            optimizePromptStyle, optimizePromptFineTuning] <;>
          omega

/-- C1: the LangGraph quality workflow terminates for every input.
`assess_quality_and_decide` marks the workflow completed as soon as the
current quality score is at least `target_quality_score` or the attempt
counter is at least `max_attempts`; every optimization node increments the
attempt counter by exactly one; and therefore, from any starting attempt
counter of at least 1, the retry loop needs at most
`max_attempts + 1 - current_attempt ≤ max_attempts` assessment rounds. -/
theorem quality_workflow_bounded (gpt : List Char → List Char → List Char)
    (base : Nat → Int) (s : WState) :
    ((s.targetQualityScore ≤ s.currentQualityScore ∨ s.maxAttempts ≤ s.currentAttempt) →
      (assessQualityAndDecide s).workflowCompleted = true) ∧
    (∀ s' : WState,
      (optimizePromptCritical gpt s').currentAttempt = s'.currentAttempt + 1 ∧
      (optimizePromptStructure gpt s').currentAttempt = s'.currentAttempt + 1 ∧
      (optimizePromptStyle gpt s').currentAttempt = s'.currentAttempt + 1 ∧
      (optimizePromptFineTuning gpt s').currentAttempt = s'.currentAttempt + 1) ∧
    (1 ≤ s.currentAttempt → s.currentAttempt ≤ s.maxAttempts →
      s.maxAttempts + 1 - s.currentAttempt ≤ s.maxAttempts ∧
      (runQualityLoop gpt base (s.maxAttempts + 1 - s.currentAttempt) s).workflowCompleted
        = true) := by
  refine ⟨?_, fun s' => ⟨rfl, rfl, rfl, rfl⟩, ?_⟩
  · intro h
    simp only [assessQualityAndDecide]
    split_ifs with h1 h2
    · rfl
    · rfl
    · exfalso
      rcases h with h | h
      · unfold fallbackScore at h1
        by_cases h0 : s.currentQualityScore = 0
        · rw [if_pos h0] at h1
          omega
        · rw [if_neg h0] at h1
          omega
      · omega
  · intro ha hb
    exact ⟨by omega, runQualityLoop_completes gpt base _ s hb rfl⟩

/-- C1 witness: from the default initial state (attempt 1, max 3, target 85,
score 0) with a trivial GPT stub and base score 70, the loop completes within
3 assessment rounds. -/
theorem quality_workflow_bounded_witness :
    (1 : Nat) ≤ 1 ∧ (1 : Nat) ≤ 3 ∧
    ((3 : Nat) + 1 - 1 ≤ 3 ∧
      (runQualityLoop (fun _ p => p) (fun _ => (70 : Int)) (3 + 1 - 1)
        ⟨1, 3, 85, 0, ("p").toList, ("initial").toList, false, false⟩).workflowCompleted
        = true) :=
  ⟨by decide, by decide,
    (quality_workflow_bounded (fun _ p => p) (fun _ => (70 : Int))
      ⟨1, 3, 85, 0, ("p").toList, ("initial").toList, false, false⟩).2.2
      (by decide) (by decide)⟩

/-- C2: when `assess_quality_and_decide` does not complete the workflow, it
selects exactly one of the four strategies by score bracket (the score being
the fallback-adjusted current score), `route_optimization` dispatches to the
matching node, and each node calls GPT-4 with its own canned system
message. -/
theorem assess_strategy_brackets_and_route (gpt : List Char → List Char → List Char)
    (s : WState) (h : (assessQualityAndDecide s).workflowCompleted = false) :
    ((fallbackScore s < 60 →
        (assessQualityAndDecide s).optimizationStrategy = ("critical_optimization").toList ∧
        routeOptimization (assessQualityAndDecide s) =
          RouteTarget.toNode (("optimize_critical").toList)) ∧
     (60 ≤ fallbackScore s → fallbackScore s < 75 →
        (assessQualityAndDecide s).optimizationStrategy = ("structure_optimization").toList ∧
        routeOptimization (assessQualityAndDecide s) =
          RouteTarget.toNode (("optimize_structure").toList)) ∧
     (75 ≤ fallbackScore s → fallbackScore s < 85 →
        (assessQualityAndDecide s).optimizationStrategy = ("style_optimization").toList ∧
        routeOptimization (assessQualityAndDecide s) =
          RouteTarget.toNode (("optimize_style").toList)) ∧
     (85 ≤ fallbackScore s →
        (assessQualityAndDecide s).optimizationStrategy = ("fine_tuning").toList ∧
        routeOptimization (assessQualityAndDecide s) =
          RouteTarget.toNode (("optimize_fine_tuning").toList))) ∧
    ((optimizePromptCritical gpt s).currentPrompt =
        gpt criticalOptimizationMessage s.currentPrompt ∧
     (optimizePromptStructure gpt s).currentPrompt =
        gpt structureOptimizationMessage s.currentPrompt ∧
     (optimizePromptStyle gpt s).currentPrompt =
        gpt styleOptimizationMessage s.currentPrompt ∧
     (optimizePromptFineTuning gpt s).currentPrompt =
        gpt fineTuningMessage s.currentPrompt) := by
  obtain ⟨-, -, -, hstr⟩ := assess_continue_spec s h
  refine ⟨⟨?_, ?_, ?_, ?_⟩, rfl, rfl, rfl, rfl⟩
  · intro hb
    have hs : (assessQualityAndDecide s).optimizationStrategy =
        ("critical_optimization").toList := by
      rw [hstr]
      unfold strategyFor
      rw [if_pos hb]
    refine ⟨hs, ?_⟩
    unfold routeOptimization
    rw [h, hs]
    rfl
  · intro hb1 hb2
    have hs : (assessQualityAndDecide s).optimizationStrategy =
        ("structure_optimization").toList := by
      rw [hstr]
      unfold strategyFor
      rw [if_neg (by omega), if_pos hb2]
    refine ⟨hs, ?_⟩
    unfold routeOptimization
    rw [h, hs]
    rfl
  · intro hb1 hb2
    have hs : (assessQualityAndDecide s).optimizationStrategy =
        ("style_optimization").toList := by
      rw [hstr]
      unfold strategyFor
      rw [if_neg (by omega), if_neg (by omega), if_pos hb2]
    refine ⟨hs, ?_⟩
    unfold routeOptimization
    rw [h, hs]
    rfl
  · intro hb
    have hs : (assessQualityAndDecide s).optimizationStrategy =
        ("fine_tuning").toList := by
      rw [hstr]
      unfold strategyFor
      rw [if_neg (by omega), if_neg (by omega), if_neg (by omega)]
    refine ⟨hs, ?_⟩
    unfold routeOptimization
    rw [h, hs]
    rfl

/-- C2 witness: a state with score 70 (below target 85, attempt 1 of 3) gets
the `structure_optimization` strategy and is routed to `optimize_structure`. -/
theorem assess_strategy_brackets_and_route_witness :
    (assessQualityAndDecide
        ⟨1, 3, 85, 70, ("p").toList, ("initial").toList, false, false⟩).optimizationStrategy
      = ("structure_optimization").toList ∧
    routeOptimization (assessQualityAndDecide
        ⟨1, 3, 85, 70, ("p").toList, ("initial").toList, false, false⟩)
      = RouteTarget.toNode (("optimize_structure").toList) :=
  ((assess_strategy_brackets_and_route (fun _ p => p)
      ⟨1, 3, 85, 70, ("p").toList, ("initial").toList, false, false⟩
      (by decide)).1.2.1 (by decide) (by decide))


/-- C6 counterexample: the claim fails as stated.  The CI color `'#{prima'`
passes the `_extract_ci_colors` validation (starts with `'#'`, length 7),
yet resolving the layout value `'{secondary_color}ry_color}'` with it as the
secondary color splices the replacement into the surrounding text and
produces the string `'#{primary_color}'`, which still contains the
`{primary_color}` placeholder after both conversion passes. -/
theorem resolve_layout_colors_counterexample :
    isValidCiColor (("#\x7bprima").toList) = true ∧
    ∃ s ∈ stringsOf (resolveLayoutColors
        (fun k => if k = ("secondary").toList then some (("#\x7bprima").toList) else none)
        (convertBannerColorsToGeneric
          (Val.dict (ValEntries.cons (("subtitle_style").toList)
            (Val.str (("\x7bsecondary_color\x7dry_color\x7d").toList))
            ValEntries.nil)))),
      priPh <:+: s := by
  refine ⟨by decide, (("#\x7bprimary_color\x7d").toList), ?_, ?_⟩ <;> decide


/-- The fuel argument of `pyReplaceF` is irrelevant once it covers the
length of the scanned string. -/
theorem pyReplaceF_irrel (pat rep : List Char) :
    ∀ n m s, s.length ≤ n → s.length ≤ m →
      pyReplaceF pat rep n s = pyReplaceF pat rep m s := by
  intro n
  induction n with
  | zero =>
    intro m s hn _
    have h0 : s = [] := List.length_eq_zero.mp (Nat.le_zero.mp hn)
    subst h0
    cases m <;> rfl
  | succ n ih =>
    intro m s hn hm
    cases s with
    | nil => cases m <;> rfl
    | cons c t =>
      cases m with
      | zero => simp at hm
      | succ m =>
        simp only [pyReplaceF]
        by_cases h : pat ≠ [] ∧ pat <+: (c :: t)
        · rw [if_pos h, if_pos h]
          have hp : 1 ≤ pat.length := List.length_pos.mpr h.1
          simp only [List.length_cons] at hn hm
          congr 1
          apply ih
          · simp only [List.length_drop, List.length_cons]
            omega
          · simp only [List.length_drop, List.length_cons]
            omega
        · rw [if_neg h, if_neg h]
          simp only [List.length_cons] at hn hm
          congr 1
          apply ih <;> omega

/-- `replace` on the empty string. -/
theorem pyReplace_nil (pat rep : List Char) : pyReplace pat rep [] = [] := rfl

/-- `replace` when the nonempty pattern matches at the front: emit the
replacement and continue after the matched stretch. -/
theorem pyReplace_match (pat rep s : List Char) (h1 : pat ≠ []) (h2 : pat <+: s) :
    pyReplace pat rep s = rep ++ pyReplace pat rep (s.drop pat.length) := by
  cases s with
  | nil => exact absurd (List.prefix_nil.mp h2) h1
  | cons c t =>
    have hstep : pyReplaceF pat rep (t.length + 1) (c :: t) =
        rep ++ pyReplaceF pat rep t.length ((c :: t).drop pat.length) := by
      simp only [pyReplaceF]
      rw [if_pos ⟨h1, h2⟩]
    calc pyReplace pat rep (c :: t)
        = pyReplaceF pat rep (t.length + 1) (c :: t) := rfl
      _ = rep ++ pyReplaceF pat rep t.length ((c :: t).drop pat.length) := hstep
      _ = rep ++ pyReplace pat rep ((c :: t).drop pat.length) := by
          congr 1
          apply pyReplaceF_irrel
          · have hp : 1 ≤ pat.length := List.length_pos.mpr h1
            simp only [List.length_drop, List.length_cons]
            omega
          · exact le_rfl

/-- `replace` when the pattern does not match at the front: keep the head
character and scan the tail. -/
theorem pyReplace_cons_neg (pat rep : List Char) (c : Char) (t : List Char)
    (h : ¬ pat <+: (c :: t)) :
    pyReplace pat rep (c :: t) = c :: pyReplace pat rep t := by
  show pyReplaceF pat rep (t.length + 1) (c :: t) = _
  simp only [pyReplaceF]
  rw [if_neg (by rintro ⟨-, h2⟩; exact h h2)]
  rfl

/-- A placeholder-shaped pattern is nonempty. -/
theorem phShape_ne_nil (pat : List Char) (h : phShape pat) : pat ≠ [] := by
  rcases h with ⟨h1, -, -⟩
  intro hc
  subst hc
  simp at h1

/-- A list whose `head?` is `'{'` is `'{'` followed by its own tail. -/
theorem eq_cons_drop_one (pat : List Char) (h : pat.head? = some '{') :
    pat = '{' :: pat.drop 1 := by
  cases pat with
  | nil => simp at h
  | cons p t =>
    simp only [List.head?_cons, Option.some.injEq] at h
    subst h
    rfl

/-- The final `'}'` of a placeholder survives dropping fewer characters than
the placeholder's length. -/
theorem mem_drop_of_getLast_brace :
    ∀ (l : List Char) (k : Nat), k < l.length → l.getLast? = some '}' →
      '}' ∈ l.drop k := by
  intro l
  induction l with
  | nil =>
    intro k hk
    simp at hk
  | cons x t ih =>
    intro k hk hlast
    cases k with
    | zero =>
      simp only [List.drop_zero]
      exact List.mem_of_mem_getLast? hlast
    | succ k =>
      cases t with
      | nil => simp at hk
      | cons y t' =>
        rw [List.getLast?_cons_cons] at hlast
        simp only [List.drop_succ_cons]
        apply ih
        · simp only [List.length_cons] at hk ⊢
          omega
        · exact hlast

/-- An infix of a concatenation is empty, starts with a character of the
first part, or is an infix of the second part. -/
theorem infix_append_cases :
    ∀ (a b l : List Char), l <:+: a ++ b →
      l = [] ∨ (∃ c ∈ a, l.head? = some c) ∨ l <:+: b := by
  intro a
  induction a with
  | nil =>
    intro b l h
    right; right
    simpa using h
  | cons x a' ih =>
    intro b l h
    rw [List.cons_append] at h
    rcases List.infix_cons_iff.mp h with hpre | hinf
    · cases l with
      | nil => exact Or.inl rfl
      | cons y l' =>
        obtain ⟨hy, -⟩ := List.cons_prefix_cons.mp hpre
        exact Or.inr (Or.inl ⟨x, List.mem_cons_self x a', by rw [List.head?_cons, hy]⟩)
    · rcases ih b l hinf with h1 | ⟨c, hc, hh⟩ | h2
      · exact Or.inl h1
      · exact Or.inr (Or.inl ⟨c, List.mem_cons_of_mem x hc, hh⟩)
      · exact Or.inr (Or.inr h2)

/-- A nonempty prefix of `c :: R` has head `c` and its tail is a prefix of
`R`. -/
theorem prefix_cons_decomp (pat : List Char) (c : Char) (R : List Char)
    (hne : pat ≠ []) (h : pat <+: c :: R) :
    pat.head? = some c ∧ pat.drop 1 <+: R := by
  cases pat with
  | nil => exact absurd rfl hne
  | cons p pt =>
    obtain ⟨h1, h2⟩ := List.cons_prefix_cons.mp h
    subst h1
    exact ⟨rfl, by simpa using h2⟩

/-- Conversely, a list with head `c` whose tail is a prefix of `R` is a
prefix of `c :: R`. -/
theorem prefix_cons_recomp (pat : List Char) (c : Char) (R : List Char)
    (hh : pat.head? = some c) (ht : pat.drop 1 <+: R) : pat <+: c :: R := by
  cases pat with
  | nil => simp at hh
  | cons p pt =>
    simp only [List.head?_cons, Option.some.injEq] at hh
    subst hh
    exact List.cons_prefix_cons.mpr ⟨rfl, by simpa using ht⟩

/-- Key lemma: a proper suffix of a placeholder that is a prefix of a
replaced string was already a prefix of the original string (the replacement
contains no `'}'` to supply the suffix's final brace, and its `'#'`-like
character keeps it from hiding inside the placeholder). -/
theorem pyReplace_drop_prefix (pat pat' rep : List Char) (hsh : phShape pat)
    (hrep : goodRep pat rep) (hne' : pat' ≠ []) :
    ∀ n s, s.length ≤ n → ∀ k, 0 < k → k < pat.length →
      pat.drop k <+: pyReplace pat' rep s → pat.drop k <+: s := by
  intro n
  induction n with
  | zero =>
    intro s hs k _ _ hp
    have h0 : s = [] := List.length_eq_zero.mp (Nat.le_zero.mp hs)
    subst h0
    rw [pyReplace_nil] at hp
    have he : pat.drop k = [] := List.prefix_nil.mp hp
    simp [he]
  | succ n ih =>
    intro s hs k hk1 hk2 hp
    by_cases hm : pat' <+: s
    · rw [pyReplace_match pat' rep s hne' hm] at hp
      exfalso
      rcases le_or_lt (pat.drop k).length rep.length with hlen | hlen
      · have hpre : pat.drop k <+: rep :=
          List.prefix_of_prefix_length_le hp (List.prefix_append rep _) hlen
        have hmem : '}' ∈ pat.drop k := mem_drop_of_getLast_brace pat k hk2 hsh.2.1
        exact hrep.2.1 (hpre.subset hmem)
      · have hrp : rep <+: pat.drop k := by
          rcases List.prefix_or_prefix_of_prefix (List.prefix_append rep
              (pyReplace pat' rep (s.drop pat'.length))) hp with h | h
          · exact h
          · exfalso
            have := h.length_le
            omega
        obtain ⟨c, hc, hcn⟩ := hrep.2.2
        exact hcn (List.drop_subset k pat (hrp.subset hc))
    · cases s with
      | nil =>
        rw [pyReplace_nil] at hp
        have he : pat.drop k = [] := List.prefix_nil.mp hp
        simp [he]
      | cons c t =>
        rw [pyReplace_cons_neg pat' rep c t hm] at hp
        rw [List.drop_eq_getElem_cons hk2] at hp ⊢
        obtain ⟨hhead, htail⟩ := List.cons_prefix_cons.mp hp
        refine List.cons_prefix_cons.mpr ⟨hhead, ?_⟩
        rcases Nat.lt_or_ge (k + 1) pat.length with hk3 | hk3
        · apply ih t ?_ (k + 1) (by omega) hk3 htail
          simp only [List.length_cons] at hs
          omega
        · rw [List.drop_eq_nil_of_le hk3] at htail ⊢
          exact ⟨t, rfl⟩

/-- Key lemma: replacing a placeholder-shaped pattern with a good
replacement leaves no occurrence of the pattern. -/
theorem pyReplace_no_self_aux (pat rep : List Char) (hsh : phShape pat)
    (hrep : goodRep pat rep) :
    ∀ n s, s.length ≤ n → ¬ pat <:+: pyReplace pat rep s := by
  have hne : pat ≠ [] := phShape_ne_nil pat hsh
  intro n
  induction n with
  | zero =>
    intro s hs hp
    have h0 : s = [] := List.length_eq_zero.mp (Nat.le_zero.mp hs)
    subst h0
    rw [pyReplace_nil] at hp
    have hl := hp.length_le
    have h2 := hsh.2.2
    simp only [List.length_nil] at hl
    omega
  | succ n ih =>
    intro s hs hp
    by_cases hm : pat <+: s
    · rw [pyReplace_match pat rep s hne hm] at hp
      rcases infix_append_cases rep _ pat hp with h0 | ⟨c, hc, hh⟩ | hin
      · exact hne h0
      · rw [hsh.1] at hh
        obtain rfl := Option.some.inj hh
        exact hrep.1 hc
      · have hlp : pat.length ≤ s.length := hm.length_le
        have h2 := hsh.2.2
        exact ih (s.drop pat.length)
          (by simp only [List.length_drop]; omega) hin
    · cases s with
      | nil =>
        rw [pyReplace_nil] at hp
        have hl := hp.length_le
        have h2 := hsh.2.2
        simp only [List.length_nil] at hl
        omega
      | cons c t =>
        rw [pyReplace_cons_neg pat rep c t hm] at hp
        rcases List.infix_cons_iff.mp hp with hpre | hin
        · obtain ⟨hh, htail⟩ := prefix_cons_decomp pat c _ hne hpre
          have hB := pyReplace_drop_prefix pat pat rep hsh hrep hne t.length t
            le_rfl 1 (by omega) (by have := hsh.2.2; omega) htail
          exact hm (prefix_cons_recomp pat c t hh hB)
        · exact ih t (by simp only [List.length_cons] at hs; omega) hin

/-- Key lemma: replacing any nonempty pattern with a good replacement cannot
create an occurrence of a placeholder-shaped pattern that was absent. -/
theorem pyReplace_no_other_aux (pat pat' rep : List Char) (hsh : phShape pat)
    (hrep : goodRep pat rep) (hne' : pat' ≠ []) :
    ∀ n s, s.length ≤ n → ¬ pat <:+: s → ¬ pat <:+: pyReplace pat' rep s := by
  have hne : pat ≠ [] := phShape_ne_nil pat hsh
  intro n
  induction n with
  | zero =>
    intro s hs hni hp
    have h0 : s = [] := List.length_eq_zero.mp (Nat.le_zero.mp hs)
    subst h0
    rw [pyReplace_nil] at hp
    exact hni hp
  | succ n ih =>
    intro s hs hni hp
    by_cases hm : pat' <+: s
    · rw [pyReplace_match pat' rep s hne' hm] at hp
      rcases infix_append_cases rep _ pat hp with h0 | ⟨c, hc, hh⟩ | hin
      · exact hne h0
      · rw [hsh.1] at hh
        obtain rfl := Option.some.inj hh
        exact hrep.1 hc
      · have hl' : 1 ≤ pat'.length := List.length_pos.mpr hne'
        refine ih (s.drop pat'.length) ?_ ?_ hin
        · simp only [List.length_drop]
          omega
        · intro hq
          exact hni (hq.trans (List.drop_suffix pat'.length s).isInfix)
    · cases s with
      | nil =>
        rw [pyReplace_nil] at hp
        exact hni hp
      | cons c t =>
        rw [pyReplace_cons_neg pat' rep c t hm] at hp
        rcases List.infix_cons_iff.mp hp with hpre | hin
        · obtain ⟨hh, htail⟩ := prefix_cons_decomp pat c _ hne hpre
          have hB := pyReplace_drop_prefix pat pat' rep hsh hrep hne' t.length t
            le_rfl 1 (by omega) (by have := hsh.2.2; omega) htail
          exact hni (List.IsPrefix.isInfix (prefix_cons_recomp pat c t hh hB))
        · refine ih t (by simp only [List.length_cons] at hs; omega) ?_ hin
          intro hq
          exact hni (hq.trans (List.drop_suffix 1 (c :: t)).isInfix)

/-- `replace` removes every occurrence of a placeholder-shaped pattern. -/
theorem pyReplace_no_self (pat rep s : List Char) (hsh : phShape pat)
    (hrep : goodRep pat rep) : ¬ pat <:+: pyReplace pat rep s :=
  pyReplace_no_self_aux pat rep hsh hrep s.length s le_rfl

/-- `replace` with a good replacement preserves absence of a
placeholder-shaped pattern. -/
theorem pyReplace_no_other (pat pat' rep s : List Char) (hsh : phShape pat)
    (hrep : goodRep pat rep) (hne' : pat' ≠ []) (h : ¬ pat <:+: s) :
    ¬ pat <:+: pyReplace pat' rep s :=
  pyReplace_no_other_aux pat pat' rep hsh hrep hne' s.length s le_rfl h


/-- A guarded self-replacement leaves no occurrence of the placeholder. -/
theorem condReplace_no_self (ph rep s : List Char) (hsh : phShape ph)
    (hrep : goodRep ph rep) : ¬ ph <:+: condReplace ph rep s := by
  unfold condReplace
  split
  · exact pyReplace_no_self ph rep s hsh hrep
  · rename_i h
    exact h

/-- A guarded replacement of another pattern preserves absence of a
placeholder. -/
theorem condReplace_preserve (ph ph' rep s : List Char) (hsh : phShape ph)
    (hrep : goodRep ph rep) (hne' : ph' ≠ []) (h : ¬ ph <:+: s) :
    ¬ ph <:+: condReplace ph' rep s := by
  unfold condReplace
  split
  · exact pyReplace_no_other ph ph' rep s hsh hrep hne' h
  · exact h

/-- Each of the four placeholders is placeholder-shaped. -/
theorem placeholders_shape : ∀ pat ∈ placeholders, phShape pat := by
  intro pat h
  simp only [placeholders, List.mem_cons, List.not_mem_nil, or_false] at h
  rcases h with rfl | rfl | rfl | rfl <;> exact ⟨rfl, rfl, by decide⟩

/-- `'#'` occurs in no placeholder. -/
theorem hash_not_mem_placeholders : ∀ pat ∈ placeholders, '#' ∉ pat := by
  intro pat h
  simp only [placeholders, List.mem_cons, List.not_mem_nil, or_false] at h
  rcases h with rfl | rfl | rfl | rfl <;> decide

/-- Each placeholder is nonempty. -/
theorem placeholders_ne_nil : ∀ pat ∈ placeholders, pat ≠ [] := by
  intro pat h
  exact phShape_ne_nil pat (placeholders_shape pat h)

/-- A brace-free color containing `'#'` is a good replacement for every
placeholder. -/
theorem goodRep_of_goodColor (pat c : List Char) (hm : pat ∈ placeholders)
    (hc : goodColor c) : goodRep pat c := by
  obtain ⟨h1, h2, h3⟩ := hc
  exact ⟨h1, h2, '#', h3, hash_not_mem_placeholders pat hm⟩

/-- No placeholder occurs in the string. -/
def phFree (s : List Char) : Prop := ∀ pat ∈ placeholders, ¬ pat <:+: s

/-- The generic banner descriptions are good replacements for every
placeholder. -/
theorem generic_goodRep :
    ∀ pat ∈ placeholders,
      goodRep pat professionalDark ∧ goodRep pat professionalLight ∧
        goodRep pat highlightedAccent := by
  intro pat h
  simp only [placeholders, List.mem_cons, List.not_mem_nil, or_false] at h
  rcases h with rfl | rfl | rfl | rfl <;>
    exact ⟨⟨by decide, by decide, ' ', by decide, by decide⟩,
      ⟨by decide, by decide, ' ', by decide, by decide⟩,
      ⟨by decide, by decide, ' ', by decide, by decide⟩⟩

/-- The cumulative hard-coded color-mapping loop of the string branch
preserves absence of all placeholders. -/
theorem foldl_condReplace_preserve :
    ∀ (l : List (List Char × List Char)) (s : List Char),
      (∀ pr ∈ l, pr.1 ≠ [] ∧ ∀ pat ∈ placeholders, goodRep pat pr.2) →
      phFree s →
      phFree (l.foldl
        (fun cur pr => if pr.1 <:+: cur then pyReplace pr.1 pr.2 cur else cur) s) := by
  intro l
  induction l with
  | nil =>
    intro s _ h
    simpa using h
  | cons pr t ih =>
    intro s hl hs
    simp only [List.foldl_cons]
    apply ih
    · intro q hq
      exact hl q (List.mem_cons_of_mem pr hq)
    · intro pat hpat
      have hg := hl pr (List.mem_cons_self pr t)
      exact condReplace_preserve pat pr.1 pr.2 s (placeholders_shape pat hpat)
        (hg.2 pat hpat) hg.1 (hs pat hpat)

/-- Every entry of the hard-coded color mapping has a nonempty pattern and a
good replacement (one of the three CI colors). -/
theorem colorMapping_good (P S A : List Char) (hP : goodColor P)
    (hS : goodColor S) (hA : goodColor A) :
    ∀ pr ∈ colorMapping P S A, pr.1 ≠ [] ∧ ∀ pat ∈ placeholders, goodRep pat pr.2 := by
  intro pr hpr
  simp only [colorMapping, List.mem_cons, List.not_mem_nil, or_false] at hpr
  rcases hpr with rfl | rfl | rfl | rfl | rfl | rfl | rfl | rfl | rfl | rfl
  · exact ⟨(by decide : ("#000000").toList ≠ []),
      fun pat hpat => goodRep_of_goodColor pat _ hpat hP⟩
  · exact ⟨(by decide : ("#333333").toList ≠ []),
      fun pat hpat => goodRep_of_goodColor pat _ hpat hP⟩
  · exact ⟨(by decide : ("#777777").toList ≠ []),
      fun pat hpat => goodRep_of_goodColor pat _ hpat hS⟩
  · exact ⟨(by decide : ("#666666").toList ≠ []),
      fun pat hpat => goodRep_of_goodColor pat _ hpat hS⟩
  · exact ⟨(by decide : ("#00B5E2").toList ≠ []),
      fun pat hpat => goodRep_of_goodColor pat _ hpat hP⟩
  · exact ⟨(by decide : ("#0088CC").toList ≠ []),
      fun pat hpat => goodRep_of_goodColor pat _ hpat hP⟩
  · exact ⟨(by decide : ("#FFC20E").toList ≠ []),
      fun pat hpat => goodRep_of_goodColor pat _ hpat hA⟩
  · exact ⟨(by decide : ("#FFB300").toList ≠ []),
      fun pat hpat => goodRep_of_goodColor pat _ hpat hA⟩
  · exact ⟨(by decide : ("#EEEEEE").toList ≠ []),
      fun pat hpat => goodRep_of_goodColor pat _ hpat hS⟩
  · exact ⟨(by decide : ("#F5F5F5").toList ≠ []),
      fun pat hpat => goodRep_of_goodColor pat _ hpat hS⟩

/-- The string branch of `replace_colors` removes every placeholder, as long
as the four CI colors are brace-free and contain `'#'`. -/
theorem resolveStr_clean (P S A B : List Char) (hP : goodColor P) (hS : goodColor S)
    (hA : goodColor A) (hB : goodColor B) (s : List Char) :
    phFree (resolveStr P S A B s) := by
  have hmP : priPh ∈ placeholders := by simp [placeholders]
  have hmS : secPh ∈ placeholders := by simp [placeholders]
  have hmA : accPh ∈ placeholders := by simp [placeholders]
  have hmB : bgPh ∈ placeholders := by simp [placeholders]
  have hshP := placeholders_shape priPh hmP
  have hshS := placeholders_shape secPh hmS
  have hshA := placeholders_shape accPh hmA
  have hshB := placeholders_shape bgPh hmB
  have hneS : secPh ≠ [] := phShape_ne_nil secPh hshS
  have hneA : accPh ≠ [] := phShape_ne_nil accPh hshA
  have hneB : bgPh ≠ [] := phShape_ne_nil bgPh hshB
  set c1 := condReplace priPh P s with hc1
  set c2 := condReplace secPh S c1 with hc2
  set c3 := condReplace accPh A c2 with hc3
  set c4 := condReplace bgPh B c3 with hc4
  have h1p : ¬ priPh <:+: c1 :=
    condReplace_no_self priPh P s hshP (goodRep_of_goodColor priPh P hmP hP)
  have h2s : ¬ secPh <:+: c2 :=
    condReplace_no_self secPh S c1 hshS (goodRep_of_goodColor secPh S hmS hS)
  have h2p : ¬ priPh <:+: c2 :=
    condReplace_preserve priPh secPh S c1 hshP (goodRep_of_goodColor priPh S hmP hS)
      hneS h1p
  have h3a : ¬ accPh <:+: c3 :=
    condReplace_no_self accPh A c2 hshA (goodRep_of_goodColor accPh A hmA hA)
  have h3p : ¬ priPh <:+: c3 :=
    condReplace_preserve priPh accPh A c2 hshP (goodRep_of_goodColor priPh A hmP hA)
      hneA h2p
  have h3s : ¬ secPh <:+: c3 :=
    condReplace_preserve secPh accPh A c2 hshS (goodRep_of_goodColor secPh A hmS hA)
      hneA h2s
  have h4b : ¬ bgPh <:+: c4 :=
    condReplace_no_self bgPh B c3 hshB (goodRep_of_goodColor bgPh B hmB hB)
  have h4p : ¬ priPh <:+: c4 :=
    condReplace_preserve priPh bgPh B c3 hshP (goodRep_of_goodColor priPh B hmP hB)
      hneB h3p
  have h4s : ¬ secPh <:+: c4 :=
    condReplace_preserve secPh bgPh B c3 hshS (goodRep_of_goodColor secPh B hmS hB)
      hneB h3s
  have h4a : ¬ accPh <:+: c4 :=
    condReplace_preserve accPh bgPh B c3 hshA (goodRep_of_goodColor accPh B hmA hB)
      hneB h3a
  have h4 : phFree c4 := by
    intro pat hpat
    simp only [placeholders, List.mem_cons, List.not_mem_nil, or_false] at hpat
    rcases hpat with rfl | rfl | rfl | rfl <;> assumption
  unfold resolveStr
  exact foldl_condReplace_preserve (colorMapping P S A) c4
    (colorMapping_good P S A hP hS hA) h4

/-- `resolveEntries` transforms each entry by `resolveEntryVal`. -/
theorem resolveEntries_cons (P S A B k : List Char) (v : Val) (t : ValEntries) :
    resolveEntries P S A B (ValEntries.cons k v t) =
      ValEntries.cons k (resolveEntryVal P S A B k v) (resolveEntries P S A B t) := rfl


/-- Unfolding equations for the traversals, stated once so later proofs can
rewrite with small, explicit terms. -/
theorem resolveVal_str (P S A B s : List Char) :
    resolveVal P S A B (Val.str s) = Val.str (resolveStr P S A B s) := rfl

/-- `replace_colors` on a dict recurses entrywise. -/
theorem resolveVal_dict (P S A B : List Char) (kvs : ValEntries) :
    resolveVal P S A B (Val.dict kvs) = Val.dict (resolveEntries P S A B kvs) := rfl

/-- `replace_colors` on a list recurses elementwise. -/
theorem resolveVal_list (P S A B : List Char) (vs : ValList) :
    resolveVal P S A B (Val.list vs) = Val.list (resolveList P S A B vs) := rfl

/-- `replace_colors` passes non-str/dict/list values through. -/
theorem resolveVal_other (P S A B : List Char) :
    resolveVal P S A B Val.other = Val.other := rfl

/-- Strings of a string value. -/
theorem stringsOf_str (s : List Char) : stringsOf (Val.str s) = [s] := rfl

/-- Strings of a dict value. -/
theorem stringsOf_dict (kvs : ValEntries) :
    stringsOf (Val.dict kvs) = stringsOfEntries kvs := rfl

/-- Strings of a list value. -/
theorem stringsOf_list (vs : ValList) :
    stringsOf (Val.list vs) = stringsOfList vs := rfl

/-- Strings of any other value. -/
theorem stringsOf_other : stringsOf Val.other = [] := rfl

/-- Strings of empty dict entries. -/
theorem stringsOfEntries_nil : stringsOfEntries ValEntries.nil = [] := rfl

/-- Strings of a dict entry cons. -/
theorem stringsOfEntries_cons (k : List Char) (v : Val) (t : ValEntries) :
    stringsOfEntries (ValEntries.cons k v t) = stringsOf v ++ stringsOfEntries t := rfl

/-- Strings of an empty list. -/
theorem stringsOfList_nil : stringsOfList ValList.nil = [] := rfl

/-- Strings of a list cons. -/
theorem stringsOfList_cons (v : Val) (t : ValList) :
    stringsOfList (ValList.cons v t) = stringsOf v ++ stringsOfList t := rfl

/-- `resolveEntries` on the empty entry list. -/
theorem resolveEntries_nil (P S A B : List Char) :
    resolveEntries P S A B ValEntries.nil = ValEntries.nil := rfl

/-- `resolveList` on the empty list. -/
theorem resolveList_nil (P S A B : List Char) :
    resolveList P S A B ValList.nil = ValList.nil := rfl

/-- `resolveList` on a cons. -/
theorem resolveList_cons (P S A B : List Char) (v : Val) (t : ValList) :
    resolveList P S A B (ValList.cons v t) =
      ValList.cons (resolveVal P S A B v) (resolveList P S A B t) := rfl

/-- Size equations. -/
theorem valSize_str (s : List Char) : valSize (Val.str s) = 1 := rfl

/-- Size of a dict value. -/
theorem valSize_dict (kvs : ValEntries) :
    valSize (Val.dict kvs) = 1 + entriesSize kvs := rfl

/-- Size of a list value. -/
theorem valSize_list (vs : ValList) : valSize (Val.list vs) = 1 + listSize vs := rfl

/-- Size of any other value. -/
theorem valSize_other : valSize Val.other = 1 := rfl

/-- Size of empty entries. -/
theorem entriesSize_nil : entriesSize ValEntries.nil = 1 := rfl

/-- Size of an entry cons. -/
theorem entriesSize_cons (k : List Char) (v : Val) (t : ValEntries) :
    entriesSize (ValEntries.cons k v t) = 1 + valSize v + entriesSize t := rfl

/-- Size of an empty list. -/
theorem listSize_nil : listSize ValList.nil = 1 := rfl

/-- Size of a list cons. -/
theorem listSize_cons (v : Val) (t : ValList) :
    listSize (ValList.cons v t) = 1 + valSize v + listSize t := rfl

/-- Every value has positive size. -/
theorem valSize_pos (v : Val) : 1 ≤ valSize v := by
  cases v with
  | str s => rw [valSize_str]
  | dict kvs => rw [valSize_dict]; omega
  | list vs => rw [valSize_list]; omega
  | other => rw [valSize_other]

/-- The entry transformation under the `background_color` key on a string
value. -/
theorem resolveEntryVal_bg_str (P S A B k sv : List Char) (hk : k = bgKey) :
    resolveEntryVal P S A B k (Val.str sv) =
      Val.str (resolveStr P S A B (resolveBgValue P S A B sv)) := by
  unfold resolveEntryVal
  rw [if_pos hk]

/-- The entry transformation under the `background_color` key on a dict
value. -/
theorem resolveEntryVal_bg_dict (P S A B k : List Char) (kvs : ValEntries)
    (hk : k = bgKey) :
    resolveEntryVal P S A B k (Val.dict kvs) = resolveVal P S A B (Val.dict kvs) := by
  unfold resolveEntryVal
  rw [if_pos hk]

/-- The entry transformation under the `background_color` key on a list
value. -/
theorem resolveEntryVal_bg_list (P S A B k : List Char) (vs : ValList)
    (hk : k = bgKey) :
    resolveEntryVal P S A B k (Val.list vs) = resolveVal P S A B (Val.list vs) := by
  unfold resolveEntryVal
  rw [if_pos hk]

/-- The entry transformation under the `background_color` key on any other
value. -/
theorem resolveEntryVal_bg_other (P S A B k : List Char) (hk : k = bgKey) :
    resolveEntryVal P S A B k Val.other = resolveVal P S A B Val.other := by
  unfold resolveEntryVal
  rw [if_pos hk]

/-- The entry transformation under any other key. -/
theorem resolveEntryVal_not_bg (P S A B k : List Char) (v : Val) (hk : ¬ k = bgKey) :
    resolveEntryVal P S A B k v = resolveVal P S A B v := by
  unfold resolveEntryVal
  rw [if_neg hk]

/-- Every string anywhere in the output of `replace_colors` is
placeholder-free, for brace-free `'#'`-containing CI colors: strong
induction on the size of the nested value, using that every string the
traversal emits has passed through the string branch. -/
theorem resolve_strings_clean (P S A B : List Char) (hP : goodColor P)
    (hS : goodColor S) (hA : goodColor A) (hB : goodColor B) :
    ∀ n : Nat,
      (∀ v : Val, valSize v ≤ n →
        ∀ s ∈ stringsOf (resolveVal P S A B v), phFree s) ∧
      (∀ kvs : ValEntries, entriesSize kvs ≤ n →
        ∀ s ∈ stringsOfEntries (resolveEntries P S A B kvs), phFree s) ∧
      (∀ vs : ValList, listSize vs ≤ n →
        ∀ s ∈ stringsOfList (resolveList P S A B vs), phFree s) := by
  intro n
  induction n with
  | zero =>
    refine ⟨?_, ?_, ?_⟩
    · intro v hv
      have := valSize_pos v
      omega
    · intro kvs hk
      exfalso
      cases kvs with
      | nil => rw [entriesSize_nil] at hk; omega
      | cons k v t => rw [entriesSize_cons] at hk; have := valSize_pos v; omega
    · intro vs hl
      exfalso
      cases vs with
      | nil => rw [listSize_nil] at hl; omega
      | cons v t => rw [listSize_cons] at hl; have := valSize_pos v; omega
  | succ n ih =>
    obtain ⟨ihv, ihe, ihl⟩ := ih
    refine ⟨?_, ?_, ?_⟩
    · intro v hv s hs
      cases v with
      | str s0 =>
        rw [resolveVal_str, stringsOf_str, List.mem_singleton] at hs
        rw [hs]
        exact resolveStr_clean P S A B hP hS hA hB s0
      | dict kvs =>
        rw [resolveVal_dict, stringsOf_dict] at hs
        rw [valSize_dict] at hv
        exact ihe kvs (by omega) s hs
      | list vs =>
        rw [resolveVal_list, stringsOf_list] at hs
        rw [valSize_list] at hv
        exact ihl vs (by omega) s hs
      | other =>
        rw [resolveVal_other, stringsOf_other] at hs
        exact absurd hs (List.not_mem_nil s)
    · intro kvs hk s hs
      cases kvs with
      | nil =>
        rw [resolveEntries_nil, stringsOfEntries_nil] at hs
        exact absurd hs (List.not_mem_nil s)
      | cons k v t =>
        rw [resolveEntries_cons, stringsOfEntries_cons] at hs
        rw [entriesSize_cons] at hk
        have hvp := valSize_pos v
        rcases List.mem_append.mp hs with hs1 | hs2
        · by_cases hkk : k = bgKey
          · cases v with
            | str sv =>
              rw [resolveEntryVal_bg_str P S A B k sv hkk, stringsOf_str,
                List.mem_singleton] at hs1
              rw [hs1]
              exact resolveStr_clean P S A B hP hS hA hB _
            | dict kvs2 =>
              rw [resolveEntryVal_bg_dict P S A B k kvs2 hkk] at hs1
              exact ihv _ (by omega) s hs1
            | list vs2 =>
              rw [resolveEntryVal_bg_list P S A B k vs2 hkk] at hs1
              exact ihv _ (by omega) s hs1
            | other =>
              rw [resolveEntryVal_bg_other P S A B k hkk] at hs1
              exact ihv _ (by omega) s hs1
          · rw [resolveEntryVal_not_bg P S A B k v hkk] at hs1
            exact ihv v (by omega) s hs1
        · exact ihe t (by omega) s hs2
    · intro vs hl s hs
      cases vs with
      | nil =>
        rw [resolveList_nil, stringsOfList_nil] at hs
        exact absurd hs (List.not_mem_nil s)
      | cons v t =>
        rw [resolveList_cons, stringsOfList_cons] at hs
        rw [listSize_cons] at hl
        have hvp := valSize_pos v
        rcases List.mem_append.mp hs with hs1 | hs2
        · exact ihv v (by omega) s hs1
        · exact ihl t (by omega) s hs2


/-- C6 amended: after `_convert_banner_colors_to_generic` and
`_resolve_layout_colors` have been applied to a layout definition, no string
value anywhere in the result (dict values, list elements, plain strings, at
any depth) contains any of the four placeholder substrings — provided each
of the four substituted CI colors contains no curly-brace character and
contains `'#'`.  (Colors accepted by `_extract_ci_colors`, including the
hard-coded defaults, always start with `'#'`; brace-freeness is the extra
proviso the counterexample shows to be necessary.) -/
theorem resolve_layout_colors_amended (ciColors : List Char → Option (List Char))
    (layout : Val)
    (hP : goodColor ((ciColors (("primary").toList)).getD (("#005EA5").toList)))
    (hS : goodColor ((ciColors (("secondary").toList)).getD (("#B4D9F7").toList)))
    (hA : goodColor ((ciColors (("accent").toList)).getD (("#FFC20E").toList)))
    (hB : goodColor ((ciColors (("background").toList)).getD (("#FFFFFF").toList))) :
    ∀ s ∈ stringsOf (resolveLayoutColors ciColors (convertBannerColorsToGeneric layout)),
      ∀ pat ∈ placeholders, ¬ pat <:+: s := by
  intro s hs
  unfold resolveLayoutColors at hs
  exact (resolve_strings_clean _ _ _ _ hP hS hA hB
      (valSize (convertBannerColorsToGeneric layout))).1
    (convertBannerColorsToGeneric layout) le_rfl s hs

/-- C6 amended witness: the default colors (no brace, `'#'` present) resolve
a layout with a placeholder-bearing banner value to a placeholder-free
result. -/
theorem resolve_layout_colors_amended_witness :
    goodColor (("#005EA5").toList) ∧
    (∀ s ∈ stringsOf (resolveLayoutColors (fun _ => none)
        (convertBannerColorsToGeneric (Val.dict (ValEntries.cons bgKey
          (Val.str (("background: {primary_color}").toList)) ValEntries.nil)))),
      ∀ pat ∈ placeholders, ¬ pat <:+: s) :=
  ⟨⟨by decide, by decide, by decide⟩,
    resolve_layout_colors_amended (fun _ => none)
      (Val.dict (ValEntries.cons bgKey
        (Val.str (("background: {primary_color}").toList)) ValEntries.nil))
      ⟨by decide, by decide, by decide⟩ ⟨by decide, by decide, by decide⟩
      ⟨by decide, by decide, by decide⟩ ⟨by decide, by decide, by decide⟩⟩
